import Mathlib

/-!
Verification development for the aeternity serialization library
(RLP codec, FATE value/type codec, API string encoder, contract-code
container).

The Rust sources are shallowly embedded:
* machine integers become `Nat`/`Int` (with explicit bounds where the
  Rust type enforces them),
* byte buffers become `List Nat`,
* fallible functions return an `Except`-like result, with an extra
  outcome `panic` for Rust executions that abort (out-of-bounds
  indexing or slicing, arithmetic on absent values, `assert!`),
* bounded-recursion loops take an explicit fuel argument; the public
  entry points instantiate fuel from the input length, which is shown
  to be sufficient for the proved executions.
-/

set_option maxHeartbeats 1600000
set_option maxRecDepth 100000

deriving instance DecidableEq for Except

namespace Aeser

/-- Result of running a fallible Rust function: a value, a structured
error, or an aborted (panicking) execution. -/
inductive RRes (ε α : Type) where
  | ok (a : α)
  | err (e : ε)
  | panic
deriving DecidableEq

namespace RRes

def isOk {ε α : Type} : RRes ε α → Bool
  | .ok _ => true
  | _ => false

end RRes

/-! ## RLP codec (src/src/rlp.rs) -/

/-- Big-endian value of a byte string (`bytes_to_size` in src/src/rlp.rs:
the source left-pads to 8 bytes and uses `usize::from_be_bytes`, which
computes exactly this fold for the at-most-8-byte inputs it receives). -/
def beVal (bytes : List Nat) : Nat :=
  bytes.foldl (fun acc b => 256 * acc + b) 0

/-- Big-endian digits of `n`, no leading zeros; the first argument is
recursion fuel (any fuel `≥` the digit count computes the digits; the
callers pass `n` itself). -/
def beDigits : Nat → Nat → List Nat
  | 0, _ => []
  | fuel + 1, n => if n = 0 then [] else beDigits fuel (n / 256) ++ [n % 256]

/-- `usize_to_min_be_bytes` from src/src/rlp.rs: minimal big-endian bytes
of `n`.  The source computes `n.ilog(256) + 1` digits, which for `n = 0`
panics; its own property test (`usize_to_min_be_bytes_plain`) expects the
empty list there, and no caller in the RLP serializer reaches `n = 0`, so
the embedding returns `[]` at zero. -/
def usizeToMinBeBytes (n : Nat) : List Nat :=
  beDigits n n

mutual
/-- `RlpItem` from src/src/rlp.rs.  `Vec<RlpItem>` is embedded as the
isomorphic mutually-inductive list type `RlpItems`. -/
inductive RlpItem where
  | byteArray (bytes : List Nat)
  | list (items : RlpItems)
deriving DecidableEq
inductive RlpItems where
  | nil
  | cons (h : RlpItem) (t : RlpItems)
deriving DecidableEq
end

namespace RlpItems

def length : RlpItems → Nat
  | .nil => 0
  | .cons _ t => 1 + length t

end RlpItems

/-- `DecodingErr` from src/src/rlp.rs. -/
inductive DecodingErr where
  | Trailing (input undecoded : List Nat) (decoded : RlpItem)
  | LeadingZerosInSize (position : Nat)
  | SizeOverflow (position expected actual : Nat)
  | Empty
deriving DecidableEq

/-- `RlpItem::add_size` from src/src/rlp.rs. -/
def addSize (offset : Nat) (bytes : List Nat) : List Nat :=
  if bytes.length ≤ 55 then
    (offset + bytes.length) :: bytes
  else
    let sizeBytes := usizeToMinBeBytes bytes.length
    (55 + offset + sizeBytes.length) :: (sizeBytes ++ bytes)

mutual
/-- `RlpItem::serialize` from src/src/rlp.rs. -/
def RlpItem.serialize : RlpItem → List Nat
  | .byteArray bytes =>
    if bytes.length = 1 ∧ bytes.headD 0 ≤ 127 then bytes
    else addSize 128 bytes
  | .list items => addSize 192 (RlpItems.serializeEach items)
/-- Concatenation of the serializations of the list items
(the `flat_map` in the `RlpItem::List` arm). -/
def RlpItems.serializeEach : RlpItems → List Nat
  | .nil => []
  | .cons h t => RlpItem.serialize h ++ RlpItems.serializeEach t
end

mutual
/-- `RlpItem::try_decode_at` from src/src/rlp.rs.  The first argument is
fuel; every slicing operation that can fall outside the input range in
Rust produces `panic`. -/
def tryDecodeAt : Nat → List Nat → Nat → RRes DecodingErr (RlpItem × List Nat)
  | 0, _, _ => .panic
  | fuel + 1, bytes, pos =>
    match bytes with
    | [] => .panic
    | b :: rest =>
      if b ≤ 127 then
        .ok (.byteArray [b], rest)
      else if b ≤ 183 then
        let len := b - 128
        if bytes.length < len + 1 then
          .err (.SizeOverflow pos len bytes.length)
        else
          .ok (.byteArray (rest.take len), rest.drop len)
      else if b ≤ 191 then
        let lenBytes := b - 183
        if bytes.length < lenBytes + 1 then
          .err (.SizeOverflow pos lenBytes bytes.length)
        else if rest.headD 0 = 0 then
          .err (.LeadingZerosInSize (pos + 1))
        else
          let len := beVal (rest.take lenBytes)
          if lenBytes + len + 1 ≤ bytes.length then
            .ok (.byteArray ((rest.drop lenBytes).take len), rest.drop (lenBytes + len))
          else
            .panic
      else if b ≤ 247 then
        let len := b - 192
        if len + 1 ≤ bytes.length then
          match decodeListAt fuel (rest.take len) (pos + 1) with
          | .ok items => .ok (.list items, rest.drop len)
          | .err e => .err e
          | .panic => .panic
        else
          .panic
      else
        let lenBytes := b - 247
        match rest with
        | [] => .panic
        | b1 :: _ =>
          if b1 = 0 then .err (.LeadingZerosInSize (pos + 1))
          else if lenBytes + 1 ≤ bytes.length then
            let len := beVal (rest.take lenBytes)
            if 1 + lenBytes + len ≤ bytes.length then
              match decodeListAt fuel ((rest.drop lenBytes).take len) (pos + 1) with
              | .ok items => .ok (.list items, rest.drop (lenBytes + len))
              | .err e => .err e
              | .panic => .panic
            else
              .panic
          else
            .panic
/-- `RlpItem::decode_list_at` from src/src/rlp.rs. -/
def decodeListAt : Nat → List Nat → Nat → RRes DecodingErr RlpItems
  | 0, _, _ => .panic
  | fuel + 1, bytes, pos =>
    match bytes with
    | [] => .ok .nil
    | _ :: _ =>
      match tryDecodeAt fuel bytes pos with
      | .ok (item, rest) =>
        match decodeListAt fuel rest (pos + ((bytes.length + 1) - rest.length)) with
        | .ok items => .ok (.cons item items)
        | .err e => .err e
        | .panic => .panic
      | .err e => .err e
      | .panic => .panic
end

/-- `RlpItem::try_deserialize` from src/src/rlp.rs.  The fuel
`3 * bytes.length + 3` dominates the call depth of any decoding run
(shown by `costR_le_serialize` for the runs the theorems use). -/
def RlpItem.tryDeserialize (bytes : List Nat) : RRes DecodingErr (RlpItem × List Nat) :=
  tryDecodeAt (3 * bytes.length + 3) bytes 0

/-- `RlpItem::deserialize` from src/src/rlp.rs. -/
def RlpItem.deserialize (bytes : List Nat) : RRes DecodingErr RlpItem :=
  if bytes.isEmpty then .err .Empty
  else
    match RlpItem.tryDeserialize bytes with
    | .ok (item, []) => .ok item
    | .ok (item, rest) => .err (.Trailing bytes rest item)
    | .err e => .err e
    | .panic => .panic

/-! ### Helper lemmas about big-endian digits -/

theorem beVal_append_one (xs : List Nat) (b : Nat) :
    beVal (xs ++ [b]) = 256 * beVal xs + b := by
  unfold beVal
  rw [List.foldl_append]
  rfl

theorem beDigits_zero (fuel : Nat) : beDigits fuel 0 = [] := by
  cases fuel <;> simp [beDigits]

theorem headD_append {xs ys : List Nat} (h : xs ≠ []) :
    (xs ++ ys).headD 0 = xs.headD 0 := by
  cases xs with
  | nil => exact absurd rfl h
  | cons a t => rfl

theorem beDigits_sound : ∀ fuel n, n ≤ fuel → beVal (beDigits fuel n) = n := by
  intro fuel
  induction fuel with
  | zero => intro n h; interval_cases n; rfl
  | succ fuel ih =>
    intro n h
    by_cases hn : n = 0
    · simp [beDigits, hn, beVal]
    · have hlt : n / 256 < n := Nat.div_lt_self (Nat.pos_of_ne_zero hn) (by norm_num)
      have hle : n / 256 ≤ fuel := by omega
      simp only [beDigits, hn, if_false]
      rw [beVal_append_one, ih _ hle]
      omega

theorem beDigits_ne_nil : ∀ fuel n, n ≠ 0 → n ≤ fuel → beDigits fuel n ≠ [] := by
  intro fuel n hn h
  cases fuel with
  | zero => omega
  | succ fuel => simp [beDigits, hn]

theorem beDigits_headD : ∀ fuel n, n ≠ 0 → n ≤ fuel → (beDigits fuel n).headD 0 ≠ 0 := by
  intro fuel
  induction fuel with
  | zero => intro n hn h; omega
  | succ fuel ih =>
    intro n hn h
    simp only [beDigits, hn, if_false]
    by_cases hq : n / 256 = 0
    · have hsmall : n < 256 := by
        rcases Nat.lt_or_ge n 256 with h' | h'
        · exact h'
        · exfalso; have := Nat.div_le_div_right (c := 256) h'; simp at this; omega
      have hmod : n % 256 = n := Nat.mod_eq_of_lt hsmall
      rw [hq, beDigits_zero]
      simpa [hmod] using hn
    · have hlt : n / 256 < n := Nat.div_lt_self (Nat.pos_of_ne_zero hn) (by norm_num)
      have hle : n / 256 ≤ fuel := by omega
      rw [headD_append (beDigits_ne_nil fuel (n / 256) hq hle)]
      exact ih (n / 256) hq hle

theorem beDigits_length_le : ∀ fuel n k, n ≤ fuel → n < 256 ^ k →
    (beDigits fuel n).length ≤ k := by
  intro fuel
  induction fuel with
  | zero => intro n k h _; interval_cases n; simp [beDigits]
  | succ fuel ih =>
    intro n k h hk
    by_cases hn : n = 0
    · simp [beDigits, hn]
    · have hlt : n / 256 < n := Nat.div_lt_self (Nat.pos_of_ne_zero hn) (by norm_num)
      have hle : n / 256 ≤ fuel := by omega
      have hkpos : k ≠ 0 := by
        intro h0; rw [h0] at hk; simp at hk; omega
      obtain ⟨k', rfl⟩ := Nat.exists_eq_succ_of_ne_zero hkpos
      have hq : n / 256 < 256 ^ k' := by
        rw [Nat.pow_succ] at hk
        exact Nat.div_lt_of_lt_mul (by omega)
      simp only [beDigits, hn, if_false, List.length_append, List.length_cons,
        List.length_nil]
      have := ih (n / 256) k' hle hq
      omega

theorem usizeToMinBeBytes_sound (n : Nat) : beVal (usizeToMinBeBytes n) = n :=
  beDigits_sound n n (le_refl n)

theorem usizeToMinBeBytes_headD (n : Nat) (hn : n ≠ 0) :
    (usizeToMinBeBytes n).headD 0 ≠ 0 :=
  beDigits_headD n n hn (le_refl n)

theorem usizeToMinBeBytes_ne_nil (n : Nat) (hn : n ≠ 0) :
    usizeToMinBeBytes n ≠ [] :=
  beDigits_ne_nil n n hn (le_refl n)

theorem usizeToMinBeBytes_length_le (n k : Nat) (hk : n < 256 ^ k) :
    (usizeToMinBeBytes n).length ≤ k :=
  beDigits_length_le n n k (le_refl n) hk

/-! ### RLP round-trip -/

mutual
/-- Upper bound on the fuel a decoding run of a serialized item consumes. -/
def costR : RlpItem → Nat
  | .byteArray _ => 1
  | .list items => 1 + costRs items
def costRs : RlpItems → Nat
  | .nil => 1
  | .cons h t => 1 + costR h + costRs t
end

mutual
/-- Rust-representability of an `RlpItem`: every byte-array length and
every serialized list payload fits in a `usize` (automatic for Rust
vectors, stated explicitly over the `Nat`-based embedding). -/
def RlpItem.wf : RlpItem → Bool
  | .byteArray bytes => decide (bytes.length < 2 ^ 64)
  | .list items =>
    decide ((RlpItems.serializeEach items).length < 2 ^ 64) && RlpItems.wfEach items
def RlpItems.wfEach : RlpItems → Bool
  | .nil => true
  | .cons h t => h.wf && RlpItems.wfEach t
end

theorem serialize_length_pos (it : RlpItem) : 1 ≤ (RlpItem.serialize it).length := by
  cases it with
  | byteArray bs =>
    unfold RlpItem.serialize
    split
    · next h => omega
    · unfold addSize; split <;> simp
  | list items =>
    unfold RlpItem.serialize addSize
    split <;> simp

/-- Decoding a byte array framed through `add_size` recovers it. -/
theorem tryDecodeAt_addSize_bytes (fuel pos : Nat) (bs suffix : List Nat)
    (hlen : bs.length < 2 ^ 64) :
    tryDecodeAt (fuel + 1) (addSize 128 bs ++ suffix) pos = .ok (.byteArray bs, suffix) := by
  unfold addSize
  by_cases h55 : bs.length ≤ 55
  · simp only [h55, if_true, List.cons_append]
    simp only [tryDecodeAt]
    rw [if_neg (by omega : ¬ (128 + bs.length ≤ 127)),
        if_pos (by omega : 128 + bs.length ≤ 183)]
    rw [if_neg (by simp only [List.length_cons, List.length_append]; omega :
      ¬ (((128 + bs.length) :: (bs ++ suffix)).length < 128 + bs.length - 128 + 1))]
    have he : 128 + bs.length - 128 = bs.length := by omega
    rw [he, List.take_left, List.drop_left]
  · simp only [h55, if_false, List.cons_append]
    have hK8 : (usizeToMinBeBytes bs.length).length ≤ 8 :=
      usizeToMinBeBytes_length_le _ 8 (by norm_num; exact hlen)
    have hK1 : 1 ≤ (usizeToMinBeBytes bs.length).length :=
      List.length_pos.mpr (usizeToMinBeBytes_ne_nil _ (by omega))
    simp only [tryDecodeAt]
    rw [if_neg (by omega : ¬ (55 + 128 + (usizeToMinBeBytes bs.length).length ≤ 127)),
        if_neg (by omega : ¬ (55 + 128 + (usizeToMinBeBytes bs.length).length ≤ 183)),
        if_pos (by omega : 55 + 128 + (usizeToMinBeBytes bs.length).length ≤ 191)]
    rw [if_neg (by simp only [List.length_cons, List.length_append]; omega :
      ¬ (((55 + 128 + (usizeToMinBeBytes bs.length).length) :: (usizeToMinBeBytes bs.length ++ bs ++ suffix)).length <
        55 + 128 + (usizeToMinBeBytes bs.length).length - 183 + 1))]
    rw [List.append_assoc]
    rw [if_neg (by
      rw [headD_append (usizeToMinBeBytes_ne_nil _ (by omega))]
      exact usizeToMinBeBytes_headD _ (by omega))]
    have he : 55 + 128 + (usizeToMinBeBytes bs.length).length - 183 =
        (usizeToMinBeBytes bs.length).length := by omega
    rw [he, List.take_left, usizeToMinBeBytes_sound]
    rw [if_pos (by simp only [List.length_cons, List.length_append]; omega :
      (usizeToMinBeBytes bs.length).length + bs.length + 1 ≤
        ((55 + 128 + (usizeToMinBeBytes bs.length).length) :: (usizeToMinBeBytes bs.length ++ (bs ++ suffix))).length)]
    rw [List.drop_left, List.take_left]
    rw [← List.append_assoc, ← List.length_append, List.drop_left]

/-- Decoding a list framed through `add_size`, assuming the payload decodes. -/
theorem tryDecodeAt_addSize_list (fuel pos : Nat) (payload suffix : List Nat)
    (items : RlpItems) (hP : payload.length < 2 ^ 64)
    (hdec : decodeListAt fuel payload (pos + 1) = .ok items) :
    tryDecodeAt (fuel + 1) (addSize 192 payload ++ suffix) pos = .ok (.list items, suffix) := by
  unfold addSize
  by_cases h55 : payload.length ≤ 55
  · simp only [h55, if_true, List.cons_append]
    simp only [tryDecodeAt]
    rw [if_neg (by omega : ¬ (192 + payload.length ≤ 127)),
        if_neg (by omega : ¬ (192 + payload.length ≤ 183)),
        if_neg (by omega : ¬ (192 + payload.length ≤ 191)),
        if_pos (by omega : 192 + payload.length ≤ 247)]
    have he : 192 + payload.length - 192 = payload.length := by omega
    rw [if_pos (by simp only [List.length_cons, List.length_append]; omega :
      192 + payload.length - 192 + 1 ≤ ((192 + payload.length) :: (payload ++ suffix)).length)]
    rw [he, List.take_left, List.drop_left, hdec]
  · simp only [h55, if_false, List.cons_append]
    have hK8 : (usizeToMinBeBytes payload.length).length ≤ 8 :=
      usizeToMinBeBytes_length_le _ 8 (by norm_num; exact hP)
    have hK1 : 1 ≤ (usizeToMinBeBytes payload.length).length :=
      List.length_pos.mpr (usizeToMinBeBytes_ne_nil _ (by omega))
    simp only [tryDecodeAt]
    rw [if_neg (by omega : ¬ (55 + 192 + (usizeToMinBeBytes payload.length).length ≤ 127)),
        if_neg (by omega : ¬ (55 + 192 + (usizeToMinBeBytes payload.length).length ≤ 183)),
        if_neg (by omega : ¬ (55 + 192 + (usizeToMinBeBytes payload.length).length ≤ 191)),
        if_neg (by omega : ¬ (55 + 192 + (usizeToMinBeBytes payload.length).length ≤ 247))]
    rw [List.append_assoc]
    cases hsb : usizeToMinBeBytes payload.length with
    | nil => rw [hsb] at hK1; simp at hK1
    | cons s0 stail =>
      rw [← hsb]
      have hrest : usizeToMinBeBytes payload.length ++ (payload ++ suffix) =
          s0 :: (stail ++ (payload ++ suffix)) := by rw [hsb]; rfl
      rw [hrest]
      rw [← hrest]
      simp only [hrest]
      rw [if_neg (by
        have := usizeToMinBeBytes_headD payload.length (by omega)
        rw [hsb] at this; simpa using this)]
      rw [if_pos (by simp only [List.length_cons, List.length_append]; omega :
        55 + 192 + (usizeToMinBeBytes payload.length).length - 247 + 1 ≤
          ((55 + 192 + (usizeToMinBeBytes payload.length).length) :: (s0 :: (stail ++ (payload ++ suffix)))).length)]
      have he : 55 + 192 + (usizeToMinBeBytes payload.length).length - 247 =
          (usizeToMinBeBytes payload.length).length := by omega
      have htk : (s0 :: (stail ++ (payload ++ suffix))).take (usizeToMinBeBytes payload.length).length
          = usizeToMinBeBytes payload.length := by
        rw [show (s0 :: (stail ++ (payload ++ suffix))) = usizeToMinBeBytes payload.length ++ (payload ++ suffix) from hrest.symm]
        exact List.take_left _ _
      rw [he, htk, usizeToMinBeBytes_sound]
      rw [if_pos (by simp only [List.length_cons, List.length_append, hsb]; omega :
        1 + (usizeToMinBeBytes payload.length).length + payload.length ≤
          ((55 + 192 + (usizeToMinBeBytes payload.length).length) :: (s0 :: (stail ++ (payload ++ suffix)))).length)]
      have hdp : (s0 :: (stail ++ (payload ++ suffix))).drop (usizeToMinBeBytes payload.length).length
          = payload ++ suffix := by
        rw [show (s0 :: (stail ++ (payload ++ suffix))) = usizeToMinBeBytes payload.length ++ (payload ++ suffix) from hrest.symm]
        exact List.drop_left _ _
      rw [hdp, List.take_left, hdec]
      have hdp2 : (s0 :: (stail ++ (payload ++ suffix))).drop
          ((usizeToMinBeBytes payload.length).length + payload.length) = suffix := by
        rw [show (s0 :: (stail ++ (payload ++ suffix))) = (usizeToMinBeBytes payload.length ++ payload) ++ suffix by
          rw [List.append_assoc]; exact hrest.symm]
        rw [← List.length_append]
        exact List.drop_left _ _
      rw [hdp2]

theorem tryDecodeAt_serialize (it : RlpItem) :
    ∀ fuel pos suffix, costR it ≤ fuel → it.wf = true →
      tryDecodeAt fuel (RlpItem.serialize it ++ suffix) pos = .ok (it, suffix) := by
  induction it using RlpItem.rec
    (motive_2 := fun its => ∀ fuel pos, costRs its ≤ fuel → RlpItems.wfEach its = true →
      decodeListAt fuel (RlpItems.serializeEach its) pos = .ok its) with
  | byteArray bs =>
    intro fuel pos suffix hfuel hwf
    obtain ⟨fuel, rfl⟩ : ∃ f, fuel = f + 1 := ⟨fuel - 1, by simp [costR] at hfuel; omega⟩
    simp only [RlpItem.wf, decide_eq_true_eq] at hwf
    unfold RlpItem.serialize
    split
    · next h1 =>
      obtain ⟨b, rfl⟩ := List.length_eq_one.mp h1.1
      have hb : b ≤ 127 := by simpa using h1.2
      simp only [List.cons_append, List.nil_append, tryDecodeAt]
      rw [if_pos hb]
    · exact tryDecodeAt_addSize_bytes fuel pos bs suffix hwf
  | list items ih =>
    intro fuel pos suffix hfuel hwf
    obtain ⟨fuel, rfl⟩ : ∃ f, fuel = f + 1 := ⟨fuel - 1, by simp [costR] at hfuel; omega⟩
    have hfuel' : costRs items ≤ fuel := by simp [costR] at hfuel; omega
    simp only [RlpItem.wf, Bool.and_eq_true, decide_eq_true_eq] at hwf
    unfold RlpItem.serialize
    exact tryDecodeAt_addSize_list fuel pos _ suffix items hwf.1
      (ih fuel (pos + 1) hfuel' hwf.2)
  | nil =>
    rename_i fuel pos hfuel hwf
    obtain ⟨fuel, rfl⟩ : ∃ f, fuel = f + 1 := ⟨fuel - 1, by simp [costRs] at hfuel; omega⟩
    simp [decodeListAt, RlpItems.serializeEach]
  | cons h t ih ihs =>
    rename_i fuel pos hfuel hwf
    obtain ⟨fuel, rfl⟩ : ∃ f, fuel = f + 1 := ⟨fuel - 1, by simp [costRs] at hfuel; omega⟩
    simp only [costRs] at hfuel
    simp only [RlpItems.wfEach, Bool.and_eq_true] at hwf
    simp only [RlpItems.serializeEach]
    have hpos := serialize_length_pos h
    cases hs : RlpItem.serialize h with
    | nil => rw [hs] at hpos; simp at hpos
    | cons x xs =>
      simp only [List.cons_append, decodeListAt]
      rw [← List.cons_append, ← hs]
      rw [ih fuel pos (RlpItems.serializeEach t) (by omega) hwf.1]
      dsimp only
      rw [ihs fuel _ (by omega) hwf.2]

theorem costR_le_serialize (it : RlpItem) :
    costR it + 1 ≤ 3 * (RlpItem.serialize it).length := by
  induction it using RlpItem.rec
    (motive_2 := fun its => costRs its ≤ 3 * (RlpItems.serializeEach its).length + 1) with
  | byteArray bs =>
    have := serialize_length_pos (.byteArray bs)
    simp only [costR]; omega
  | list items ih =>
    simp only [costR, RlpItem.serialize]
    have hlen : (RlpItems.serializeEach items).length + 1 ≤ (addSize 192 (RlpItems.serializeEach items)).length := by
      unfold addSize
      split
      · simp
      · simp only [List.length_cons, List.length_append]; omega
    omega
  | nil => simp [costRs, RlpItems.serializeEach]
  | cons h t ih ihs =>
    simp only [costRs, RlpItems.serializeEach, List.length_append]
    omega

/-- Full round-trip for the RLP serializer at the public entry points. -/
theorem rlp_deserialize_serialize (it : RlpItem) (hwf : it.wf = true) :
    RlpItem.deserialize (RlpItem.serialize it) = .ok it := by
  have hpos := serialize_length_pos it
  have hcost := costR_le_serialize it
  unfold RlpItem.deserialize
  rw [if_neg (by cases hs : RlpItem.serialize it <;> simp_all)]
  unfold RlpItem.tryDeserialize
  have h := tryDecodeAt_serialize it (3 * (RlpItem.serialize it).length + 3) 0 [] (by omega) hwf
  rw [List.append_nil] at h
  rw [h]

theorem rlp_tryDeserialize_serialize (it : RlpItem) (hwf : it.wf = true) :
    RlpItem.tryDeserialize (RlpItem.serialize it) = .ok (it, []) := by
  have hcost := costR_le_serialize it
  unfold RlpItem.tryDeserialize
  have h := tryDecodeAt_serialize it (3 * (RlpItem.serialize it).length + 3) 0 [] (by omega) hwf
  rw [List.append_nil] at h
  exact h

/-! ## FATE data (src/crates/aebytecode/src/data.rs and data/…) -/

namespace Fate

/-- `error::DecodingErr` of the aeser crate
(src/crates/aeserialization/src/error.rs; the older copy in
src/src/error.rs lacks the final two constructors). -/
inductive AeDecodingErr where
  | InvalidIdSize
  | InvalidIdTag
  | InvalidIdPub
  | InvalidBool
  | InvalidInt
  | InvalidBinary
  | InvalidList
  | InvalidRlp
  | InvalidPrefix
  | MissingPrefix
  | IncorrectSize
  | InvalidEncoding
  | InvalidCheck
  | InvalidCode
deriving DecidableEq

/-- `SerErr` from src/crates/aebytecode/src/data/error.rs. -/
inductive SerErr where
  | NonEmptyStoreMapCache
  | InvalidVariantTag
  | MapAsKeyType
  | HeteroMapKeys
  | HeteroMapValues
  | ArityValuesMismatch
  | TupleSizeLimitExceeded
  | VariantSizeLimitExceeded
deriving DecidableEq

/-- `BytesSize` from src/crates/aebytecode/src/data/types.rs. -/
inductive BytesSize where
  | sized (n : Nat)
  | unsized
deriving DecidableEq

mutual
/-- `Type` from src/crates/aebytecode/src/data/types.rs (`Vec<Type>`
embedded as the isomorphic mutually-inductive list type `Tys`). -/
inductive Ty where
  | any
  | boolean
  | integer
  | bits
  | string
  | address
  | contract
  | oracle
  | oracleQuery
  | channel
  | contractBytearray
  | tvar (n : Nat)
  | bytes (size : BytesSize)
  | list (t : Ty)
  | tuple (ts : Tys)
  | variant (ts : Tys)
  | map (key val : Ty)
deriving DecidableEq
inductive Tys where
  | nil
  | cons (h : Ty) (t : Tys)
deriving DecidableEq
end

def Tys.length : Tys → Nat
  | .nil => 0
  | .cons _ t => 1 + Tys.length t

mutual
/-- `Value` from src/crates/aebytecode/src/data/value.rs.  `Vec<Value>`
is embedded as `Values`; the `BTreeMap<Value, Value>` of the `Map` and
`StoreMap` arms is embedded as its iteration sequence `ValuePairs`
(key-value pairs in the tree's comparison order). -/
inductive Value where
  | boolean (b : Bool)
  | integer (n : Int)
  | bits (n : Int)
  | list (elems : Values)
  | tuple (elems : Values)
  | string (s : List Nat)
  | bytes (s : List Nat)
  | address (s : List Nat)
  | contract (s : List Nat)
  | oracle (s : List Nat)
  | oracleQuery (s : List Nat)
  | channel (s : List Nat)
  | contractBytearray (s : List Nat)
  | typerep (t : Ty)
  | map (entries : ValuePairs)
  | storeMap (cache : ValuePairs) (id : Nat)
  | variant (arities : List Nat) (tag : Nat) (values : Values)
deriving DecidableEq
inductive Values where
  | nil
  | cons (h : Value) (t : Values)
deriving DecidableEq
inductive ValuePairs where
  | nil
  | cons (k v : Value) (t : ValuePairs)
deriving DecidableEq
end

def Values.length : Values → Nat
  | .nil => 0
  | .cons _ t => 1 + Values.length t

def ValuePairs.length : ValuePairs → Nat
  | .nil => 0
  | .cons _ _ t => 1 + ValuePairs.length t

/-- `DeserErr` from src/crates/aebytecode/src/data/error.rs. -/
inductive DeserErr where
  | Empty
  | InvalidIdByte (b : Nat)
  | InvalidObjectByte (b : Nat)
  | InvalidBytesObject
  | InvalidObject
  | RlpErr (e : DecodingErr)
  | ExternalErr (e : AeDecodingErr)
  | InvalidTypeVar
  | InvalidTypeId (b : Nat)
  | Trailing (input undecoded : List Nat) (decoded : Value)
  | InvalidIntValue
  | InvalidBytesType
  | BytesSizeTooBig
  | InvalidTuple
  | InvalidTupleOrVariant
  | InvalidTypeObjectByte (b : Nat)
  | InvalidString
  | InvalidContractBytearray
  | InvalidListSize
  | InvalidTupleSize
  | InvalidMapSize
  | InvalidMapId
  | TooLargeTagInVariant
  | BadVariant
  | TagDoesNotMatchTypeInVariant
  | CalldataDecodeErr
deriving DecidableEq

/-! ### Value ordering (`impl Ord for Value`, value.rs lines 44-67) -/

/-- `Value::ordinal` (value.rs lines 423-446); `none` models the panic on
`Typerep` and `StoreMap`. -/
def Value.ordinal : Value → Option Nat
  | .integer _ => some 0
  | .boolean _ => some 1
  | .address _ => some 2
  | .channel _ => some 3
  | .contract _ => some 4
  | .oracle _ => some 5
  | .bytes _ => some 6
  | .bits _ => some 7
  | .string _ => some 8
  | .tuple _ => some 9
  | .map _ => some 10
  | .list _ => some 11
  | .variant _ _ _ => some 12
  | .oracleQuery _ => some 13
  | .contractBytearray _ => some 14
  | .typerep _ => none
  | .storeMap _ _ => none

/-- Lexicographic comparison of byte vectors (`Ord for Vec<u8>`). -/
def listCmp : List Nat → List Nat → Ordering
  | [], [] => .eq
  | [], _ :: _ => .lt
  | _ :: _, [] => .gt
  | a :: as_, b :: bs_ =>
    match compare a b with
    | .eq => listCmp as_ bs_
    | o => o

/-- `Ord::cmp for Value` (value.rs lines 44-67): ordinals are compared
first (`partial_cmp`); on equal ordinals only `Boolean`, `Integer` and
`String` fall back to their natural order, every other same-ordinal pair
compares `Equal`.  `none` models the panic of `ordinal` on `Typerep` and
`StoreMap` operands. -/
def Value.cmp (a b : Value) : Option Ordering :=
  match a.ordinal, b.ordinal with
  | some x, some y =>
    if x = y then
      match a, b with
      | .boolean p, .boolean q => some (compare p q)
      | .integer p, .integer q => some (compare p q)
      | .string p, .string q => some (listCmp p q)
      | _, _ => some .eq
    else some (compare x y)
  | _, _ => none

/-- `BTreeMap::insert` over the iteration-sequence embedding: walk the
ordered pairs with `Value::cmp`; an `Equal` comparison replaces the
stored value (keeping the stored key), otherwise the new pair is placed
at its ordered position.  `none` models a panicking comparison. -/
def insertPair : ValuePairs → Value → Value → Option ValuePairs
  | .nil, k, v => some (.cons k v .nil)
  | .cons k' v' t, k, v =>
    match Value.cmp k k' with
    | none => none
    | some .lt => some (.cons k v (.cons k' v' t))
    | some .eq => some (.cons k' v t)
    | some .gt => (insertPair t k v).map (.cons k' v')

/-- The map-materialization loop of the `MAP` arm of
`Value::try_deserialize` (value.rs lines 330-334): consume the decoded
values two at a time and insert each pair. -/
def buildMap : Values → ValuePairs → Option ValuePairs
  | .nil, acc => some acc
  | .cons k (.cons v rest), acc =>
    match insertPair acc k v with
    | some acc' => buildMap rest acc'
    | none => none
  | .cons _ .nil, _ => none

/-! ### Integer framer (`serialize_int`, src/crates/aebytecode/src/data.rs) -/

/-- `BigUint::to_bytes_be` from the num-bigint crate: minimal big-endian
bytes, except that zero is the single byte `0x00`. -/
def bigUintToBytesBE (n : Nat) : List Nat :=
  if n = 0 then [0] else usizeToMinBeBytes n

/-- `serialize_int` from src/crates/aebytecode/src/data.rs. -/
def serializeInt (n : Int) : List Nat :=
  if n.natAbs < 64 then
    [(if n < 0 then 128 else 0) + n.natAbs * 2]
  else
    (if n < 0 then 239 else 111) ::
      RlpItem.serialize (.byteArray (bigUintToBytesBE (n.natAbs - 64)))

/-! ### FATE type codec (src/crates/aebytecode/src/data/types.rs) -/

mutual
/-- `Type::serialize`. -/
def Ty.serialize : Ty → Except SerErr (List Nat)
  | .integer => .ok [7]
  | .boolean => .ok [23]
  | .any => .ok [247]
  | .list t => (Ty.serialize t).map (fun b => 39 :: b)
  | .tvar n => .ok [231, n]
  | .tuple ts =>
    if ts.length < 256 then
      (Tys.serializeEach ts).map (fun body => 55 :: ts.length :: body)
    else .error .TupleSizeLimitExceeded
  | .bytes size =>
    .ok (151 :: serializeInt (match size with | .unsized => -1 | .sized n => (n : Int)))
  | .address => .ok [71, 0]
  | .contract => .ok [71, 2]
  | .oracle => .ok [71, 3]
  | .oracleQuery => .ok [71, 4]
  | .channel => .ok [71, 5]
  | .bits => .ok [87]
  | .string => .ok [119]
  | .map key val =>
    match Ty.serialize key with
    | .error e => .error e
    | .ok kb =>
      match Ty.serialize val with
      | .error e => .error e
      | .ok vb => .ok (103 :: (kb ++ vb))
  | .variant ts =>
    if ts.length < 256 then
      (Tys.serializeEach ts).map (fun body => 135 :: ts.length :: body)
    else .error .VariantSizeLimitExceeded
  | .contractBytearray => .ok [167]
/-- Concatenated serialization of the element types of a tuple/variant. -/
def Tys.serializeEach : Tys → Except SerErr (List Nat)
  | .nil => .ok []
  | .cons h t =>
    match Ty.serialize h with
    | .error e => .error e
    | .ok hb =>
      match Tys.serializeEach t with
      | .error e => .error e
      | .ok tb => .ok (hb ++ tb)
end

/-! ### FATE value serializer (src/crates/aebytecode/src/data/value.rs) -/

/-- The `String` arm of `Value::serialize` (also used by the `Bytes`
arm, which serializes its payload as a FATE string). -/
def serializeString (s : List Nat) : List Nat :=
  if s.isEmpty then [95]
  else if s.length < 64 then (s.length * 4 + 1) :: s
  else 1 :: (serializeInt ((s.length : Int) - 64) ++ s)

/-- Framing of a non-empty tuple by `Value::serialize_many`
(`SHORT_TUPLE_SIZE = 16`, ids `0x0B`/`0x0B`), together with the
empty-tuple special case of the `Tuple` arm. -/
def tupleFrame (len : Nat) (body : List Nat) : List Nat :=
  if len = 0 then [63]
  else if len < 16 then (len * 16 + 11) :: body
  else 11 :: (RlpItem.serialize (.byteArray (usizeToMinBeBytes (len - 16))) ++ body)

/-- Framing of a list by `Value::serialize_many`
(`SHORT_LIST_SIZE = 16`, ids `0x03`/`0x1F`). -/
def listFrame (len : Nat) (body : List Nat) : List Nat :=
  if len < 16 then (len * 16 + 3) :: body
  else 31 :: (RlpItem.serialize (.byteArray (usizeToMinBeBytes (len - 16))) ++ body)

/-- `std::mem::discriminant` for `Value` (injective on constructors). -/
def Value.discr : Value → Nat
  | .boolean _ => 0
  | .integer _ => 1
  | .bits _ => 2
  | .list _ => 3
  | .tuple _ => 4
  | .string _ => 5
  | .bytes _ => 6
  | .address _ => 7
  | .contract _ => 8
  | .oracle _ => 9
  | .oracleQuery _ => 10
  | .channel _ => 11
  | .contractBytearray _ => 12
  | .typerep _ => 13
  | .map _ => 14
  | .storeMap _ _ => 15
  | .variant _ _ _ => 16

/-- `map.keys().any(|k| matches!(k, Map(_)))`. -/
def hasMapKey : ValuePairs → Bool
  | .nil => false
  | .cons k _ t => (match k with | .map _ => true | _ => false) || hasMapKey t

/-- `map.keys().all(|k| discriminant(k) == discriminant(some_key))`. -/
def keysDiscrAll (d : Nat) : ValuePairs → Bool
  | .nil => true
  | .cons k _ t => (Value.discr k == d) && keysDiscrAll d t

/-- `map.values().all(|v| discriminant(v) == discriminant(some_val))`. -/
def valsDiscrAll (d : Nat) : ValuePairs → Bool
  | .nil => true
  | .cons _ v t => (Value.discr v == d) && valsDiscrAll d t

mutual
/-- `Value::serialize` from src/crates/aebytecode/src/data/value.rs.
The conversions of raw byte vectors and of `usize`/`u32` lengths and
ids to RLP items come from `aeser`'s `ToRlpItem` impls: byte vectors
become RLP byte arrays (src/crates/aeserialization/src/bytes.rs);
integer lengths/ids become their minimal big-endian byte string
(`usize_to_min_be_bytes`, src/src/rlp.rs).  Modelled from the spec:
the `usize` impl itself is not under src/ (the rlp module of the
aeserialization crate is missing); §4.4 of the spec fixes both as
"RLP-encoded as a byte array". -/
def Value.serialize : Value → Except SerErr (List Nat)
  | .boolean b => .ok [if b then 255 else 127]
  | .integer n => .ok (serializeInt n)
  | .bits n =>
    .ok ((if n < 0 then 207 else 79) ::
      RlpItem.serialize (.byteArray (bigUintToBytesBE n.natAbs)))
  | .string s => .ok (serializeString s)
  | .tuple elems => (Values.serializeEach elems).map (tupleFrame elems.length)
  | .list elems => (Values.serializeEach elems).map (listFrame elems.length)
  | .bytes s => .ok (159 :: 1 :: serializeString s)
  | .address s => .ok (159 :: 0 :: RlpItem.serialize (.byteArray s))
  | .contract s => .ok (159 :: 2 :: RlpItem.serialize (.byteArray s))
  | .oracle s => .ok (159 :: 3 :: RlpItem.serialize (.byteArray s))
  | .oracleQuery s => .ok (159 :: 4 :: RlpItem.serialize (.byteArray s))
  | .channel s => .ok (159 :: 5 :: RlpItem.serialize (.byteArray s))
  | .contractBytearray s => .ok (143 :: (serializeInt (s.length : Int) ++ s))
  | .typerep t => Ty.serialize t
  | .map entries =>
    let head := 47 :: RlpItem.serialize (.byteArray (usizeToMinBeBytes entries.length))
    match entries with
    | .nil => (ValuePairs.serializeEach .nil).map (fun body => head ++ body)
    | .cons k0 v0 t =>
      if hasMapKey (.cons k0 v0 t) then .error .MapAsKeyType
      else if ¬ (keysDiscrAll (Value.discr k0) (.cons k0 v0 t) = true) then .error .HeteroMapKeys
      else if ¬ (valsDiscrAll (Value.discr v0) (.cons k0 v0 t) = true) then .error .HeteroMapValues
      else (ValuePairs.serializeEach (.cons k0 v0 t)).map (fun body => head ++ body)
  | .storeMap cache id =>
    match cache with
    | .nil => .ok (191 :: RlpItem.serialize (.byteArray (usizeToMinBeBytes id)))
    | .cons _ _ _ => .error .NonEmptyStoreMapCache
  | .variant arities tag values =>
    if tag < arities.length then
      if values.length = arities.getD tag 0 then
        (Values.serializeEach values).map (fun body =>
          175 :: (RlpItem.serialize (.byteArray arities) ++ (tag :: tupleFrame values.length body)))
      else .error .ArityValuesMismatch
    else .error .InvalidVariantTag
/-- Concatenated serialization of a sequence of values (the element
loops of `serialize_many`). -/
def Values.serializeEach : Values → Except SerErr (List Nat)
  | .nil => .ok []
  | .cons h t =>
    match Value.serialize h with
    | .error e => .error e
    | .ok hb =>
      match Values.serializeEach t with
      | .error e => .error e
      | .ok tb => .ok (hb ++ tb)
/-- Concatenated serialization of the `(key, value)` pairs of a map. -/
def ValuePairs.serializeEach : ValuePairs → Except SerErr (List Nat)
  | .nil => .ok []
  | .cons k v t =>
    match Value.serialize k with
    | .error e => .error e
    | .ok kb =>
      match Value.serialize v with
      | .error e => .error e
      | .ok vb =>
        match ValuePairs.serializeEach t with
        | .error e => .error e
        | .ok tb => .ok (kb ++ (vb ++ tb))
end

/-! ### FATE value/type deserializer -/

/-- `rlp_decode_bytes` from src/crates/aebytecode/src/data/value.rs:
an RLP item is decoded from the front of the input and unpacked as a
byte array (`Bytes::from_rlp_item`,
src/crates/aeserialization/src/bytes.rs). -/
def rlpDecodeBytes (bytes : List Nat) : RRes DeserErr (List Nat × List Nat) :=
  match RlpItem.tryDeserialize bytes with
  | .panic => .panic
  | .err e => .err (.RlpErr e)
  | .ok (item, rest) =>
    match item with
    | .byteArray bs => .ok (bs, rest)
    | .list _ => .err (.ExternalErr .InvalidBinary)

/-- `is_type_tag` from src/crates/aebytecode/src/data/consts.rs. -/
def isTypeTag (b : Nat) : Bool :=
  b = 7 ∨ b = 23 ∨ b = 39 ∨ b = 55 ∨ b = 71 ∨ b = 87 ∨ b = 103 ∨ b = 119 ∨
    b = 135 ∨ b = 151 ∨ b = 167 ∨ b = 231 ∨ b = 247

mutual
/-- `Value::try_deserialize` from src/crates/aebytecode/src/data/value.rs
(first argument is fuel; `panic` models the out-of-range slicings and
indexings of the source). -/
def deserValue : Nat → List Nat → RRes DeserErr (Value × List Nat)
  | 0, _ => .panic
  | fuel + 1, bytes =>
    match bytes with
    | [] => .err .Empty
    | b :: rest =>
      if b = 255 then .ok (.boolean true, rest)
      else if b = 127 then .ok (.boolean false, rest)
      else if b = 63 then .ok (.tuple .nil, rest)
      else if b = 95 then .ok (.string [], rest)
      else if b = 239 then
        match rlpDecodeBytes rest with
        | .ok (decoded, rest') => .ok (.integer (-(beVal decoded : Int) - 64), rest')
        | .err e => .err e
        | .panic => .panic
      else if b = 111 then
        match rlpDecodeBytes rest with
        | .ok (decoded, rest') => .ok (.integer ((beVal decoded : Int) + 64), rest')
        | .err e => .err e
        | .panic => .panic
      else if b = 207 then
        match rlpDecodeBytes rest with
        | .ok (decoded, rest') => .ok (.bits (-(beVal decoded : Int)), rest')
        | .err e => .err e
        | .panic => .panic
      else if b = 79 then
        match rlpDecodeBytes rest with
        | .ok (decoded, rest') => .ok (.bits ((beVal decoded : Int)), rest')
        | .err e => .err e
        | .panic => .panic
      else if b = 11 then
        match rlpDecodeBytes rest with
        | .ok (decoded, rest') =>
          if beVal decoded < 2 ^ 64 then
            match deserMany fuel (beVal decoded + 16) rest' with
            | .ok (elems, rest'') => .ok (.tuple elems, rest'')
            | .err e => .err e
            | .panic => .panic
          else .err .InvalidTupleSize
        | .err e => .err e
        | .panic => .panic
      else if b = 31 then
        match rlpDecodeBytes rest with
        | .ok (decoded, rest') =>
          if beVal decoded < 2 ^ 64 then
            match deserMany fuel (beVal decoded + 16) rest' with
            | .ok (elems, rest'') => .ok (.list elems, rest'')
            | .err e => .err e
            | .panic => .panic
          else .err .InvalidListSize
        | .err e => .err e
        | .panic => .panic
      else if b = 1 then
        match deserValue fuel rest with
        | .ok (.integer n, rest') =>
          if 0 ≤ n then
            if n.toNat < 2 ^ 64 then
              if n.toNat + 64 ≤ rest'.length then
                .ok (.string (rest'.take (n.toNat + 64)), rest'.drop (n.toNat + 64))
              else .panic
            else .err .InvalidString
          else .err .InvalidString
        | .ok (_, _) => .err .InvalidString
        | .err e => .err e
        | .panic => .panic
      else if b = 143 then
        match deserValue fuel rest with
        | .ok (.integer n, rest') =>
          if 0 ≤ n then
            if n.toNat < 2 ^ 64 then
              if n.toNat ≤ rest'.length then
                .ok (.contractBytearray (rest'.take n.toNat), rest'.drop n.toNat)
              else .panic
            else .err .InvalidContractBytearray
          else .err .InvalidContractBytearray
        | .ok (_, _) => .err .InvalidContractBytearray
        | .err e => .err e
        | .panic => .panic
      else if b = 159 then
        if bytes.length < 3 then .err .InvalidObject
        else
          match rest with
          | [] => .panic
          | b1 :: rest2 =>
            if b1 = 1 then
              match deserValue fuel rest2 with
              | .ok (.string s, r) => .ok (.bytes s, r)
              | .ok (_, _) => .err .InvalidBytesObject
              | .err e => .err e
              | .panic => .panic
            else
              match rlpDecodeBytes rest2 with
              | .ok (decoded, r) =>
                if b1 = 0 then .ok (.address decoded, r)
                else if b1 = 2 then .ok (.contract decoded, r)
                else if b1 = 3 then .ok (.oracle decoded, r)
                else if b1 = 4 then .ok (.oracleQuery decoded, r)
                else if b1 = 5 then .ok (.channel decoded, r)
                else .err (.InvalidObjectByte b1)
              | .err e => .err e
              | .panic => .panic
      else if b = 47 then
        match rlpDecodeBytes rest with
        | .ok (decoded, rest') =>
          if beVal decoded < 2 ^ 64 then
            match deserMany fuel (beVal decoded * 2) rest' with
            | .ok (elems, rest'') =>
              match buildMap elems .nil with
              | some entries => .ok (.map entries, rest'')
              | none => .panic
            | .err e => .err e
            | .panic => .panic
          else .err .InvalidMapSize
        | .err e => .err e
        | .panic => .panic
      else if b = 191 then
        match rlpDecodeBytes rest with
        | .ok (decoded, rest') =>
          if beVal decoded < 2 ^ 32 then .ok (.storeMap .nil (beVal decoded), rest')
          else .err .InvalidMapId
        | .err e => .err e
        | .panic => .panic
      else if b = 175 then
        match rlpDecodeBytes rest with
        | .ok (arities, rest') =>
          match rest' with
          | [] => .panic
          | tagB :: rest'' =>
            if tagB > arities.length then .err .TooLargeTagInVariant
            else
              match deserValue fuel rest'' with
              | .ok (.tuple elems, r) =>
                if tagB = arities.length then .panic
                else if arities.getD tagB 0 = elems.length then
                  .ok (.variant arities tagB elems, r)
                else .err .TagDoesNotMatchTypeInVariant
              | .ok (_, _) => .err .BadVariant
              | .err e => .err e
              | .panic => .panic
        | .err e => .err e
        | .panic => .panic
      else if b &&& 129 = 0 then
        .ok (.integer ((b &&& 126) / 2 : Nat), rest)
      else if b &&& 129 = 128 then
        .ok (.integer (-((b &&& 126) / 2 : Nat)), rest)
      else if b &&& 3 = 1 then
        if b / 4 ≤ rest.length then
          .ok (.string (rest.take (b / 4)), rest.drop (b / 4))
        else .panic
      else if b &&& 15 = 11 then
        match deserMany fuel (b / 16) rest with
        | .ok (elems, rest') => .ok (.tuple elems, rest')
        | .err e => .err e
        | .panic => .panic
      else if b &&& 15 = 3 then
        match deserMany fuel (b / 16) rest with
        | .ok (elems, rest') => .ok (.list elems, rest')
        | .err e => .err e
        | .panic => .panic
      else if isTypeTag b then
        match deserTy fuel bytes with
        | .ok (t, r) => .ok (.typerep t, r)
        | .err e => .err e
        | .panic => .panic
      else .err (.InvalidIdByte b)
/-- `Value::deserialize_many`. -/
def deserMany : Nat → Nat → List Nat → RRes DeserErr (Values × List Nat)
  | 0, _, _ => .panic
  | _ + 1, 0, bytes => .ok (.nil, bytes)
  | fuel + 1, n + 1, bytes =>
    match deserValue fuel bytes with
    | .ok (v, rest) =>
      match deserMany fuel n rest with
      | .ok (vs, rest') => .ok (.cons v vs, rest')
      | .err e => .err e
      | .panic => .panic
    | .err e => .err e
    | .panic => .panic
/-- `Type::deserialize` from src/crates/aebytecode/src/data/types.rs. -/
def deserTy : Nat → List Nat → RRes DeserErr (Ty × List Nat)
  | 0, _ => .panic
  | fuel + 1, bytes =>
    match bytes with
    | [] => .err .Empty
    | b :: rest =>
      if b = 7 then .ok (.integer, rest)
      else if b = 23 then .ok (.boolean, rest)
      else if b = 247 then .ok (.any, rest)
      else if b = 87 then .ok (.bits, rest)
      else if b = 119 then .ok (.string, rest)
      else if b = 167 then .ok (.contractBytearray, rest)
      else if b = 231 then
        match rest with
        | [] => .err .InvalidTypeVar
        | b1 :: rest2 => .ok (.tvar b1, rest2)
      else if b = 55 then
        match deserTyMany fuel rest with
        | .ok (ts, r) => .ok (.tuple ts, r)
        | .err e => .err e
        | .panic => .panic
      else if b = 135 then
        match deserTyMany fuel rest with
        | .ok (ts, r) => .ok (.variant ts, r)
        | .err e => .err e
        | .panic => .panic
      else if b = 151 then
        match deserValue fuel rest with
        | .ok (.integer n, r) =>
          if n = -1 then .ok (.bytes .unsized, r)
          else if 0 ≤ n then
            if n.toNat < 2 ^ 64 then .ok (.bytes (.sized n.toNat), r)
            else .err .BytesSizeTooBig
          else .err .InvalidIntValue
        | .ok (_, _) => .err .InvalidBytesType
        | .err e => .err e
        | .panic => .panic
      else if b = 39 then
        match deserTy fuel rest with
        | .ok (t, r) => .ok (.list t, r)
        | .err e => .err e
        | .panic => .panic
      else if b = 103 then
        match deserTy fuel rest with
        | .ok (key, r1) =>
          match deserTy fuel r1 with
          | .ok (val, r2) => .ok (.map key val, r2)
          | .err e => .err e
          | .panic => .panic
        | .err e => .err e
        | .panic => .panic
      else if b = 71 then
        match rest with
        | [] => .panic
        | b1 :: rest2 =>
          if b1 = 0 then .ok (.address, rest2)
          else if b1 = 2 then .ok (.contract, rest2)
          else if b1 = 3 then .ok (.oracle, rest2)
          else if b1 = 4 then .ok (.oracleQuery, rest2)
          else if b1 = 5 then .ok (.channel, rest2)
          else .err (.InvalidTypeObjectByte b1)
      else .err (.InvalidTypeId b)
/-- `Type::deserialize_many` (reads the element count byte, then the
element types). -/
def deserTyMany : Nat → List Nat → RRes DeserErr (Tys × List Nat)
  | 0, _ => .panic
  | fuel + 1, bytes =>
    match bytes with
    | [] => .err .InvalidTupleOrVariant
    | b :: rest => deserTyLoop fuel b rest
/-- The element loop of `Type::deserialize_many`. -/
def deserTyLoop : Nat → Nat → List Nat → RRes DeserErr (Tys × List Nat)
  | 0, _, _ => .panic
  | _ + 1, 0, bytes => .ok (.nil, bytes)
  | fuel + 1, n + 1, bytes =>
    match deserTy fuel bytes with
    | .ok (t, rest) =>
      match deserTyLoop fuel n rest with
      | .ok (ts, rest') => .ok (.cons t ts, rest')
      | .err e => .err e
      | .panic => .panic
    | .err e => .err e
    | .panic => .panic
end

/-- `Value::try_deserialize` at its public entry point; the fuel
`3 * bytes.length + 3` dominates the call depth of the decoding runs the
theorems below use (`costV_le_serialize`). -/
def Value.tryDeserialize (bytes : List Nat) : RRes DeserErr (Value × List Nat) :=
  deserValue (3 * bytes.length + 3) bytes

/-- `Value::deserialize`. -/
def Value.deserialize (bytes : List Nat) : RRes DeserErr Value :=
  match Value.tryDeserialize bytes with
  | .ok (v, []) => .ok v
  | .ok (v, rest) => .err (.Trailing bytes rest v)
  | .err e => .err e
  | .panic => .panic

/-- `Type::deserialize` at its public entry point. -/
def Ty.deserialize (bytes : List Nat) : RRes DeserErr (Ty × List Nat) :=
  deserTy (3 * bytes.length + 3) bytes

end Fate

namespace Fate

/-! ### Fuel cost bounds for decoding runs -/

mutual
def costT : Ty → Nat
  | .bytes _ => 2
  | .list t => 1 + costT t
  | .tuple ts => 2 + costTs ts
  | .variant ts => 2 + costTs ts
  | .map key val => 1 + costT key + costT val
  | _ => 1
def costTs : Tys → Nat
  | .nil => 1
  | .cons h t => 1 + costT h + costTs t
end

mutual
def costV : Value → Nat
  | .boolean _ => 1
  | .integer _ => 1
  | .bits _ => 1
  | .string _ => 2
  | .bytes _ => 3
  | .address _ => 1
  | .contract _ => 1
  | .oracle _ => 1
  | .oracleQuery _ => 1
  | .channel _ => 1
  | .contractBytearray _ => 2
  | .typerep t => 1 + costT t
  | .tuple elems => 1 + costVs elems
  | .list elems => 1 + costVs elems
  | .map entries => 1 + costVPs entries
  | .storeMap _ _ => 1
  | .variant _ _ values => 2 + costVs values
def costVs : Values → Nat
  | .nil => 1
  | .cons h t => 1 + costV h + costVs t
def costVPs : ValuePairs → Nat
  | .nil => 1
  | .cons k v t => 2 + costV k + costV v + costVPs t
end

/-! ### Representability and map order invariants -/

/-- Adjacent keys of the pair sequence are strictly increasing under the
implementation's comparison — the invariant of an actual
`BTreeMap<Value, Value>` iteration sequence. -/
def chainSorted : ValuePairs → Bool
  | .nil => true
  | .cons _ _ .nil => true
  | .cons k _ (.cons k' v' t) =>
    decide (Value.cmp k k' = some .lt) && chainSorted (.cons k' v' t)

mutual
/-- Rust-representability of a `Ty` (every `usize` field fits). -/
def Ty.reprOk : Ty → Bool
  | .bytes (.sized n) => decide (n < 2 ^ 64)
  | .bytes .unsized => true
  | .list t => Ty.reprOk t
  | .tuple ts => Tys.reprOkEach ts
  | .variant ts => Tys.reprOkEach ts
  | .map key val => Ty.reprOk key && Ty.reprOk val
  | _ => true
def Tys.reprOkEach : Tys → Bool
  | .nil => true
  | .cons h t => Ty.reprOk h && Tys.reprOkEach t
end

mutual
/-- Rust-representability of a `Value`: vector lengths and the
`StoreMap` id fit the machine types (`usize`/`u32`), magnitudes of
big integers occupy a representable number of bytes, and every map
carries the `BTreeMap` ordering invariant (`chainSorted`). -/
def Value.reprOk : Value → Bool
  | .boolean _ => true
  | .integer n => decide ((bigUintToBytesBE (n.natAbs - 64)).length < 2 ^ 64)
  | .bits n => decide ((bigUintToBytesBE n.natAbs).length < 2 ^ 64)
  | .string s => decide (s.length - 64 < 2 ^ 64)
  | .bytes s => decide (s.length - 64 < 2 ^ 64)
  | .address s => decide (s.length < 2 ^ 64)
  | .contract s => decide (s.length < 2 ^ 64)
  | .oracle s => decide (s.length < 2 ^ 64)
  | .oracleQuery s => decide (s.length < 2 ^ 64)
  | .channel s => decide (s.length < 2 ^ 64)
  | .contractBytearray s => decide (s.length < 2 ^ 64)
  | .typerep t => Ty.reprOk t
  | .tuple elems => decide (elems.length - 16 < 2 ^ 64) && Values.reprOkEach elems
  | .list elems => decide (elems.length - 16 < 2 ^ 64) && Values.reprOkEach elems
  | .map entries =>
    decide (entries.length < 2 ^ 64) && chainSorted entries && ValuePairs.reprOkEach entries
  | .storeMap _ id => decide (id < 2 ^ 32)
  | .variant arities _ values =>
    decide (arities.length < 2 ^ 64) && decide (values.length - 16 < 2 ^ 64) &&
      Values.reprOkEach values
def Values.reprOkEach : Values → Bool
  | .nil => true
  | .cons h t => Value.reprOk h && Values.reprOkEach t
def ValuePairs.reprOkEach : ValuePairs → Bool
  | .nil => true
  | .cons k v t => Value.reprOk k && Value.reprOk v && ValuePairs.reprOkEach t
end

/-- The key/value sequence a map's pairs produce on the wire
(`N` back-to-back `(key, value)` encodings read back as `2N` values). -/
def interleave : ValuePairs → Values
  | .nil => .nil
  | .cons k v t => .cons k (.cons v (interleave t))

/-- Append a pair at the end of the sequence. -/
def ValuePairs.push : ValuePairs → Value → Value → ValuePairs
  | .nil, k, v => .cons k v .nil
  | .cons k' v' t, k, v => .cons k' v' (ValuePairs.push t k v)

/-- Every key of the sequence compares strictly below `k`. -/
def allKeysLt : ValuePairs → Value → Bool
  | .nil, _ => true
  | .cons k' _ t, k => decide (Value.cmp k' k = some .lt) && allKeysLt t k

/-! ### Basic facts used across the round-trip proof -/

theorem bigUintToBytesBE_sound (n : Nat) : beVal (bigUintToBytesBE n) = n := by
  unfold bigUintToBytesBE
  split
  · next h => simp [h, beVal]
  · exact usizeToMinBeBytes_sound n

theorem bigUintToBytesBE_length_le (n k : Nat) (h1 : 1 ≤ k) (hk : n < 256 ^ k) :
    (bigUintToBytesBE n).length ≤ k := by
  unfold bigUintToBytesBE
  split
  · simpa using h1
  · exact usizeToMinBeBytes_length_le n k hk

/-- Unpacking an RLP-framed byte array from the front of the input. -/
theorem rlpDecodeBytes_serialize (bs suffix : List Nat) (h : bs.length < 2 ^ 64) :
    rlpDecodeBytes (RlpItem.serialize (.byteArray bs) ++ suffix) = .ok (bs, suffix) := by
  unfold rlpDecodeBytes RlpItem.tryDeserialize
  rw [tryDecodeAt_serialize (.byteArray bs) _ 0 suffix
    (by simp [costR]) (by simp only [RlpItem.wf, decide_eq_true_eq]; exact h)]

theorem mask_small_pos : ∀ m, m < 64 → (m * 2) &&& 129 = 0 ∧ (m * 2) &&& 126 = m * 2 := by decide

theorem mask_small_neg : ∀ m, m < 64 →
    (128 + m * 2) &&& 129 = 128 ∧ (128 + m * 2) &&& 126 = m * 2 := by decide

theorem mask_short_string : ∀ L, L < 64 →
    ¬ ((L * 4 + 1) &&& 129 = 0) ∧ ¬ ((L * 4 + 1) &&& 129 = 128) ∧
    (L * 4 + 1) &&& 3 = 1 ∧ (L * 4 + 1) / 4 = L := by decide

theorem mask_short_tuple : ∀ k, k < 16 →
    ¬ ((k * 16 + 11) &&& 129 = 0) ∧ ¬ ((k * 16 + 11) &&& 129 = 128) ∧
    ¬ ((k * 16 + 11) &&& 3 = 1) ∧ (k * 16 + 11) &&& 15 = 11 ∧
    (k * 16 + 11) / 16 = k := by decide

theorem mask_short_list : ∀ k, k < 16 →
    ¬ ((k * 16 + 3) &&& 129 = 0) ∧ ¬ ((k * 16 + 3) &&& 129 = 128) ∧
    ¬ ((k * 16 + 3) &&& 3 = 1) ∧ ¬ ((k * 16 + 3) &&& 15 = 11) ∧
    (k * 16 + 3) &&& 15 = 3 ∧ (k * 16 + 3) / 16 = k := by decide

/-- Decoding a small-integer byte (low bit 0). -/
theorem deserValue_small_pos (fuel m : Nat) (rest : List Nat) (hm : m < 64) :
    deserValue (fuel + 1) ((m * 2) :: rest) = .ok (.integer (m : Int), rest) := by
  simp only [deserValue]
  rw [if_neg (by omega : ¬ (m * 2 = 255)), if_neg (by omega : ¬ (m * 2 = 127)),
      if_neg (by omega : ¬ (m * 2 = 63)), if_neg (by omega : ¬ (m * 2 = 95)),
      if_neg (by omega : ¬ (m * 2 = 239)), if_neg (by omega : ¬ (m * 2 = 111)),
      if_neg (by omega : ¬ (m * 2 = 207)), if_neg (by omega : ¬ (m * 2 = 79)),
      if_neg (by omega : ¬ (m * 2 = 11)), if_neg (by omega : ¬ (m * 2 = 31)),
      if_neg (by omega : ¬ (m * 2 = 1)), if_neg (by omega : ¬ (m * 2 = 143)),
      if_neg (by omega : ¬ (m * 2 = 159)), if_neg (by omega : ¬ (m * 2 = 47)),
      if_neg (by omega : ¬ (m * 2 = 191)), if_neg (by omega : ¬ (m * 2 = 175)),
      if_pos (mask_small_pos m hm).1, (mask_small_pos m hm).2]
  rw [Nat.mul_div_cancel m (by norm_num : 0 < 2)]

theorem deserValue_small_neg (fuel m : Nat) (rest : List Nat) (hm : m < 64) :
    deserValue (fuel + 1) ((128 + m * 2) :: rest) = .ok (.integer (-(m : Int)), rest) := by
  simp only [deserValue]
  rw [if_neg (by omega : ¬ (128 + m * 2 = 255)), if_neg (by omega : ¬ (128 + m * 2 = 127)),
      if_neg (by omega : ¬ (128 + m * 2 = 63)), if_neg (by omega : ¬ (128 + m * 2 = 95)),
      if_neg (by omega : ¬ (128 + m * 2 = 239)), if_neg (by omega : ¬ (128 + m * 2 = 111)),
      if_neg (by omega : ¬ (128 + m * 2 = 207)), if_neg (by omega : ¬ (128 + m * 2 = 79)),
      if_neg (by omega : ¬ (128 + m * 2 = 11)), if_neg (by omega : ¬ (128 + m * 2 = 31)),
      if_neg (by omega : ¬ (128 + m * 2 = 1)), if_neg (by omega : ¬ (128 + m * 2 = 143)),
      if_neg (by omega : ¬ (128 + m * 2 = 159)), if_neg (by omega : ¬ (128 + m * 2 = 47)),
      if_neg (by omega : ¬ (128 + m * 2 = 191)), if_neg (by omega : ¬ (128 + m * 2 = 175)),
      if_neg (by rw [(mask_small_neg m hm).1]; omega),
      if_pos (mask_small_neg m hm).1, (mask_small_neg m hm).2]
  rw [Nat.mul_div_cancel m (by norm_num : 0 < 2)]

/-- Decoding a short-string tag byte. -/
theorem deserValue_short_string (fuel L : Nat) (rest : List Nat) (h0 : 1 ≤ L) (hm : L < 64) :
    deserValue (fuel + 1) ((L * 4 + 1) :: rest) =
      (if L ≤ rest.length then .ok (.string (rest.take L), rest.drop L) else .panic) := by
  simp only [deserValue]
  rw [if_neg (by omega : ¬ (L * 4 + 1 = 255)), if_neg (by omega : ¬ (L * 4 + 1 = 127)),
      if_neg (by omega : ¬ (L * 4 + 1 = 63)), if_neg (by omega : ¬ (L * 4 + 1 = 95)),
      if_neg (by omega : ¬ (L * 4 + 1 = 239)), if_neg (by omega : ¬ (L * 4 + 1 = 111)),
      if_neg (by omega : ¬ (L * 4 + 1 = 207)), if_neg (by omega : ¬ (L * 4 + 1 = 79)),
      if_neg (by omega : ¬ (L * 4 + 1 = 11)), if_neg (by omega : ¬ (L * 4 + 1 = 31)),
      if_neg (by omega : ¬ (L * 4 + 1 = 1)), if_neg (by omega : ¬ (L * 4 + 1 = 143)),
      if_neg (by omega : ¬ (L * 4 + 1 = 159)), if_neg (by omega : ¬ (L * 4 + 1 = 47)),
      if_neg (by omega : ¬ (L * 4 + 1 = 191)), if_neg (by omega : ¬ (L * 4 + 1 = 175)),
      if_neg (mask_short_string L hm).1, if_neg (mask_short_string L hm).2.1,
      if_pos (mask_short_string L hm).2.2.1, (mask_short_string L hm).2.2.2]

/-- Decoding a short-tuple tag byte. -/
theorem deserValue_short_tuple (fuel k : Nat) (rest : List Nat) (h0 : 1 ≤ k) (hm : k < 16) :
    deserValue (fuel + 1) ((k * 16 + 11) :: rest) =
      (match deserMany fuel k rest with
       | .ok (elems, rest') => .ok (.tuple elems, rest')
       | .err e => .err e
       | .panic => .panic) := by
  simp only [deserValue]
  rw [if_neg (by omega : ¬ (k * 16 + 11 = 255)), if_neg (by omega : ¬ (k * 16 + 11 = 127)),
      if_neg (by omega : ¬ (k * 16 + 11 = 63)), if_neg (by omega : ¬ (k * 16 + 11 = 95)),
      if_neg (by omega : ¬ (k * 16 + 11 = 239)), if_neg (by omega : ¬ (k * 16 + 11 = 111)),
      if_neg (by omega : ¬ (k * 16 + 11 = 207)), if_neg (by omega : ¬ (k * 16 + 11 = 79)),
      if_neg (by omega : ¬ (k * 16 + 11 = 11)), if_neg (by omega : ¬ (k * 16 + 11 = 31)),
      if_neg (by omega : ¬ (k * 16 + 11 = 1)), if_neg (by omega : ¬ (k * 16 + 11 = 143)),
      if_neg (by omega : ¬ (k * 16 + 11 = 159)), if_neg (by omega : ¬ (k * 16 + 11 = 47)),
      if_neg (by omega : ¬ (k * 16 + 11 = 191)), if_neg (by omega : ¬ (k * 16 + 11 = 175)),
      if_neg (mask_short_tuple k hm).1, if_neg (mask_short_tuple k hm).2.1,
      if_neg (mask_short_tuple k hm).2.2.1, if_pos (mask_short_tuple k hm).2.2.2.1,
      (mask_short_tuple k hm).2.2.2.2]

/-- Decoding a short-list tag byte. -/
theorem deserValue_short_list (fuel k : Nat) (rest : List Nat) (hm : k < 16) :
    deserValue (fuel + 1) ((k * 16 + 3) :: rest) =
      (match deserMany fuel k rest with
       | .ok (elems, rest') => .ok (.list elems, rest')
       | .err e => .err e
       | .panic => .panic) := by
  simp only [deserValue]
  rw [if_neg (by omega : ¬ (k * 16 + 3 = 255)), if_neg (by omega : ¬ (k * 16 + 3 = 127)),
      if_neg (by omega : ¬ (k * 16 + 3 = 63)), if_neg (by omega : ¬ (k * 16 + 3 = 95)),
      if_neg (by omega : ¬ (k * 16 + 3 = 239)), if_neg (by omega : ¬ (k * 16 + 3 = 111)),
      if_neg (by omega : ¬ (k * 16 + 3 = 207)), if_neg (by omega : ¬ (k * 16 + 3 = 79)),
      if_neg (by omega : ¬ (k * 16 + 3 = 11)), if_neg (by omega : ¬ (k * 16 + 3 = 31)),
      if_neg (by omega : ¬ (k * 16 + 3 = 1)), if_neg (by omega : ¬ (k * 16 + 3 = 143)),
      if_neg (by omega : ¬ (k * 16 + 3 = 159)), if_neg (by omega : ¬ (k * 16 + 3 = 47)),
      if_neg (by omega : ¬ (k * 16 + 3 = 191)), if_neg (by omega : ¬ (k * 16 + 3 = 175)),
      if_neg (mask_short_list k hm).1, if_neg (mask_short_list k hm).2.1,
      if_neg (mask_short_list k hm).2.2.1, if_neg (mask_short_list k hm).2.2.2.1,
      if_pos (mask_short_list k hm).2.2.2.2.1, (mask_short_list k hm).2.2.2.2.2]

/-! ### Arm-level reductions of `deserValue` for the fixed tag bytes -/

theorem deserValue_head255 (fuel : Nat) (rest : List Nat) :
    deserValue (fuel + 1) (255 :: rest) = .ok (.boolean true, rest) := rfl

theorem deserValue_head127 (fuel : Nat) (rest : List Nat) :
    deserValue (fuel + 1) (127 :: rest) = .ok (.boolean false, rest) := rfl

theorem deserValue_head63 (fuel : Nat) (rest : List Nat) :
    deserValue (fuel + 1) (63 :: rest) = .ok (.tuple .nil, rest) := rfl

theorem deserValue_head95 (fuel : Nat) (rest : List Nat) :
    deserValue (fuel + 1) (95 :: rest) = .ok (.string [], rest) := rfl

theorem deserValue_head239 (fuel : Nat) (rest : List Nat) :
    deserValue (fuel + 1) (239 :: rest) =
      (match rlpDecodeBytes rest with
       | .ok (decoded, rest') => .ok (.integer (-(beVal decoded : Int) - 64), rest')
       | .err e => .err e
       | .panic => .panic) := rfl

theorem deserValue_head111 (fuel : Nat) (rest : List Nat) :
    deserValue (fuel + 1) (111 :: rest) =
      (match rlpDecodeBytes rest with
       | .ok (decoded, rest') => .ok (.integer ((beVal decoded : Int) + 64), rest')
       | .err e => .err e
       | .panic => .panic) := rfl

theorem deserValue_head207 (fuel : Nat) (rest : List Nat) :
    deserValue (fuel + 1) (207 :: rest) =
      (match rlpDecodeBytes rest with
       | .ok (decoded, rest') => .ok (.bits (-(beVal decoded : Int)), rest')
       | .err e => .err e
       | .panic => .panic) := rfl

theorem deserValue_head79 (fuel : Nat) (rest : List Nat) :
    deserValue (fuel + 1) (79 :: rest) =
      (match rlpDecodeBytes rest with
       | .ok (decoded, rest') => .ok (.bits ((beVal decoded : Int)), rest')
       | .err e => .err e
       | .panic => .panic) := rfl

theorem deserValue_head11 (fuel : Nat) (rest : List Nat) :
    deserValue (fuel + 1) (11 :: rest) =
      (match rlpDecodeBytes rest with
       | .ok (decoded, rest') =>
         if beVal decoded < 2 ^ 64 then
           match deserMany fuel (beVal decoded + 16) rest' with
           | .ok (elems, rest'') => .ok (.tuple elems, rest'')
           | .err e => .err e
           | .panic => .panic
         else .err .InvalidTupleSize
       | .err e => .err e
       | .panic => .panic) := rfl

theorem deserValue_head31 (fuel : Nat) (rest : List Nat) :
    deserValue (fuel + 1) (31 :: rest) =
      (match rlpDecodeBytes rest with
       | .ok (decoded, rest') =>
         if beVal decoded < 2 ^ 64 then
           match deserMany fuel (beVal decoded + 16) rest' with
           | .ok (elems, rest'') => .ok (.list elems, rest'')
           | .err e => .err e
           | .panic => .panic
         else .err .InvalidListSize
       | .err e => .err e
       | .panic => .panic) := rfl

theorem deserValue_head1 (fuel : Nat) (rest : List Nat) :
    deserValue (fuel + 1) (1 :: rest) =
      (match deserValue fuel rest with
       | .ok (.integer n, rest') =>
         if 0 ≤ n then
           if n.toNat < 2 ^ 64 then
             if n.toNat + 64 ≤ rest'.length then
               .ok (.string (rest'.take (n.toNat + 64)), rest'.drop (n.toNat + 64))
             else .panic
           else .err .InvalidString
         else .err .InvalidString
       | .ok (_, _) => .err .InvalidString
       | .err e => .err e
       | .panic => .panic) := rfl

theorem deserValue_head143 (fuel : Nat) (rest : List Nat) :
    deserValue (fuel + 1) (143 :: rest) =
      (match deserValue fuel rest with
       | .ok (.integer n, rest') =>
         if 0 ≤ n then
           if n.toNat < 2 ^ 64 then
             if n.toNat ≤ rest'.length then
               .ok (.contractBytearray (rest'.take n.toNat), rest'.drop n.toNat)
             else .panic
           else .err .InvalidContractBytearray
         else .err .InvalidContractBytearray
       | .ok (_, _) => .err .InvalidContractBytearray
       | .err e => .err e
       | .panic => .panic) := rfl

theorem deserValue_head159 (fuel : Nat) (rest : List Nat) :
    deserValue (fuel + 1) (159 :: rest) =
      (if (159 :: rest).length < 3 then .err .InvalidObject
       else
        match rest with
        | [] => .panic
        | b1 :: rest2 =>
          if b1 = 1 then
            match deserValue fuel rest2 with
            | .ok (.string s, r) => .ok (.bytes s, r)
            | .ok (_, _) => .err .InvalidBytesObject
            | .err e => .err e
            | .panic => .panic
          else
            match rlpDecodeBytes rest2 with
            | .ok (decoded, r) =>
              if b1 = 0 then .ok (.address decoded, r)
              else if b1 = 2 then .ok (.contract decoded, r)
              else if b1 = 3 then .ok (.oracle decoded, r)
              else if b1 = 4 then .ok (.oracleQuery decoded, r)
              else if b1 = 5 then .ok (.channel decoded, r)
              else .err (.InvalidObjectByte b1)
            | .err e => .err e
            | .panic => .panic) := rfl

theorem deserValue_head47 (fuel : Nat) (rest : List Nat) :
    deserValue (fuel + 1) (47 :: rest) =
      (match rlpDecodeBytes rest with
       | .ok (decoded, rest') =>
         if beVal decoded < 2 ^ 64 then
           match deserMany fuel (beVal decoded * 2) rest' with
           | .ok (elems, rest'') =>
             match buildMap elems .nil with
             | some entries => .ok (.map entries, rest'')
             | none => .panic
           | .err e => .err e
           | .panic => .panic
         else .err .InvalidMapSize
       | .err e => .err e
       | .panic => .panic) := rfl

theorem deserValue_head191 (fuel : Nat) (rest : List Nat) :
    deserValue (fuel + 1) (191 :: rest) =
      (match rlpDecodeBytes rest with
       | .ok (decoded, rest') =>
         if beVal decoded < 2 ^ 32 then .ok (.storeMap .nil (beVal decoded), rest')
         else .err .InvalidMapId
       | .err e => .err e
       | .panic => .panic) := rfl

theorem deserValue_head175 (fuel : Nat) (rest : List Nat) :
    deserValue (fuel + 1) (175 :: rest) =
      (match rlpDecodeBytes rest with
       | .ok (arities, rest') =>
         match rest' with
         | [] => .panic
         | tagB :: rest'' =>
           if tagB > arities.length then .err .TooLargeTagInVariant
           else
             match deserValue fuel rest'' with
             | .ok (.tuple elems, r) =>
               if tagB = arities.length then .panic
               else if arities.getD tagB 0 = elems.length then
                 .ok (.variant arities tagB elems, r)
               else .err .TagDoesNotMatchTypeInVariant
             | .ok (_, _) => .err .BadVariant
             | .err e => .err e
             | .panic => .panic
       | .err e => .err e
       | .panic => .panic) := rfl

/-! ### Round-trip of the integer framer and of strings -/

theorem deserValue_serializeInt (fuel : Nat) (n : Int) (suffix : List Nat)
    (hrep : (bigUintToBytesBE (n.natAbs - 64)).length < 2 ^ 64) :
    deserValue (fuel + 1) (serializeInt n ++ suffix) = .ok (.integer n, suffix) := by
  unfold serializeInt
  by_cases hs : n.natAbs < 64
  · simp only [hs, if_true]
    by_cases hneg : n < 0
    · simp only [hneg, if_true, List.singleton_append]
      rw [deserValue_small_neg fuel n.natAbs suffix hs]
      have : -(n.natAbs : Int) = n := by omega
      rw [this]
    · simp only [hneg, if_false, Nat.zero_add, List.singleton_append]
      rw [deserValue_small_pos fuel n.natAbs suffix hs]
      have : (n.natAbs : Int) = n := by omega
      rw [this]
  · simp only [hs, if_false]
    by_cases hneg : n < 0
    · simp only [hneg, if_true, List.cons_append]
      rw [deserValue_head239, rlpDecodeBytes_serialize _ suffix hrep]
      dsimp only
      rw [bigUintToBytesBE_sound]
      have : -((n.natAbs - 64 : Nat) : Int) - 64 = n := by omega
      rw [this]
    · simp only [hneg, if_false, List.cons_append]
      rw [deserValue_head111, rlpDecodeBytes_serialize _ suffix hrep]
      dsimp only
      rw [bigUintToBytesBE_sound]
      have : ((n.natAbs - 64 : Nat) : Int) + 64 = n := by omega
      rw [this]

theorem deserValue_serializeString (fuel : Nat) (s suffix : List Nat)
    (hrep : s.length - 64 < 2 ^ 64) :
    deserValue (fuel + 2) (serializeString s ++ suffix) = .ok (.string s, suffix) := by
  unfold serializeString
  by_cases hnil : s.isEmpty
  · have : s = [] := by cases s <;> simp_all
    subst this
    simp only [List.isEmpty_nil, if_true, List.singleton_append]
    exact deserValue_head95 (fuel + 1) suffix
  · simp only [hnil, Bool.false_eq_true, if_false]
    by_cases hshort : s.length < 64
    · simp only [hshort, if_true, List.cons_append]
      have h1 : 1 ≤ s.length := by cases s <;> simp_all
      rw [deserValue_short_string (fuel + 1) s.length (s ++ suffix) h1 hshort]
      rw [if_pos (by simp only [List.length_append]; omega)]
      rw [List.take_left, List.drop_left]
    · simp only [hshort, if_false, List.cons_append, List.append_assoc]
      rw [deserValue_head1]
      have hm : ((s.length : Int) - 64).natAbs - 64 = s.length - 128 := by omega
      have hrep' : (bigUintToBytesBE (((s.length : Int) - 64).natAbs - 64)).length < 2 ^ 64 := by
        rw [hm]
        calc (bigUintToBytesBE (s.length - 128)).length
            ≤ 8 := bigUintToBytesBE_length_le _ 8 (by omega) (by norm_num; omega)
          _ < 2 ^ 64 := by norm_num
      rw [deserValue_serializeInt fuel ((s.length : Int) - 64) (s ++ suffix) hrep']
      dsimp only
      rw [if_pos (by omega : (0 : Int) ≤ (s.length : Int) - 64)]
      have ht : ((s.length : Int) - 64).toNat = s.length - 64 := by omega
      rw [ht, if_pos hrep]
      rw [if_pos (by simp only [List.length_append]; omega)]
      have h64 : s.length - 64 + 64 = s.length := by omega
      rw [h64, List.take_left, List.drop_left]

/-! ### Round-trip of the type codec -/

theorem deserTy_head55 (fuel : Nat) (rest : List Nat) :
    deserTy (fuel + 1) (55 :: rest) =
      (match deserTyMany fuel rest with
       | .ok (ts, r) => .ok (.tuple ts, r)
       | .err e => .err e
       | .panic => .panic) := rfl

theorem deserTy_head135 (fuel : Nat) (rest : List Nat) :
    deserTy (fuel + 1) (135 :: rest) =
      (match deserTyMany fuel rest with
       | .ok (ts, r) => .ok (.variant ts, r)
       | .err e => .err e
       | .panic => .panic) := rfl

theorem deserTy_head151 (fuel : Nat) (rest : List Nat) :
    deserTy (fuel + 1) (151 :: rest) =
      (match deserValue fuel rest with
       | .ok (.integer n, r) =>
         if n = -1 then .ok (.bytes .unsized, r)
         else if 0 ≤ n then
           if n.toNat < 2 ^ 64 then .ok (.bytes (.sized n.toNat), r)
           else .err .BytesSizeTooBig
         else .err .InvalidIntValue
       | .ok (_, _) => .err .InvalidBytesType
       | .err e => .err e
       | .panic => .panic) := rfl

theorem deserTy_head39 (fuel : Nat) (rest : List Nat) :
    deserTy (fuel + 1) (39 :: rest) =
      (match deserTy fuel rest with
       | .ok (t, r) => .ok (.list t, r)
       | .err e => .err e
       | .panic => .panic) := rfl

theorem deserTy_head103 (fuel : Nat) (rest : List Nat) :
    deserTy (fuel + 1) (103 :: rest) =
      (match deserTy fuel rest with
       | .ok (key, r1) =>
         match deserTy fuel r1 with
         | .ok (val, r2) => .ok (.map key val, r2)
         | .err e => .err e
         | .panic => .panic
       | .err e => .err e
       | .panic => .panic) := rfl

theorem deserTy_serialize (t : Ty) :
    ∀ bs fuel suffix, Ty.serialize t = .ok bs → Ty.reprOk t = true → costT t ≤ fuel →
      deserTy fuel (bs ++ suffix) = .ok (t, suffix) := by
  induction t using Ty.rec
    (motive_2 := fun ts => ∀ bs fuel suffix, Tys.serializeEach ts = .ok bs →
      Tys.reprOkEach ts = true → costTs ts ≤ fuel →
      deserTyLoop fuel ts.length (bs ++ suffix) = .ok (ts, suffix)) with
  | any =>
    intro bs fuel suffix h _ hf
    obtain ⟨f, rfl⟩ : ∃ f, fuel = f + 1 := ⟨fuel - 1, by simp [costT] at hf; omega⟩
    cases h; rfl
  | boolean =>
    intro bs fuel suffix h _ hf
    obtain ⟨f, rfl⟩ : ∃ f, fuel = f + 1 := ⟨fuel - 1, by simp [costT] at hf; omega⟩
    cases h; rfl
  | integer =>
    intro bs fuel suffix h _ hf
    obtain ⟨f, rfl⟩ : ∃ f, fuel = f + 1 := ⟨fuel - 1, by simp [costT] at hf; omega⟩
    cases h; rfl
  | bits =>
    intro bs fuel suffix h _ hf
    obtain ⟨f, rfl⟩ : ∃ f, fuel = f + 1 := ⟨fuel - 1, by simp [costT] at hf; omega⟩
    cases h; rfl
  | string =>
    intro bs fuel suffix h _ hf
    obtain ⟨f, rfl⟩ : ∃ f, fuel = f + 1 := ⟨fuel - 1, by simp [costT] at hf; omega⟩
    cases h; rfl
  | address =>
    intro bs fuel suffix h _ hf
    obtain ⟨f, rfl⟩ : ∃ f, fuel = f + 1 := ⟨fuel - 1, by simp [costT] at hf; omega⟩
    cases h; rfl
  | contract =>
    intro bs fuel suffix h _ hf
    obtain ⟨f, rfl⟩ : ∃ f, fuel = f + 1 := ⟨fuel - 1, by simp [costT] at hf; omega⟩
    cases h; rfl
  | oracle =>
    intro bs fuel suffix h _ hf
    obtain ⟨f, rfl⟩ : ∃ f, fuel = f + 1 := ⟨fuel - 1, by simp [costT] at hf; omega⟩
    cases h; rfl
  | oracleQuery =>
    intro bs fuel suffix h _ hf
    obtain ⟨f, rfl⟩ : ∃ f, fuel = f + 1 := ⟨fuel - 1, by simp [costT] at hf; omega⟩
    cases h; rfl
  | channel =>
    intro bs fuel suffix h _ hf
    obtain ⟨f, rfl⟩ : ∃ f, fuel = f + 1 := ⟨fuel - 1, by simp [costT] at hf; omega⟩
    cases h; rfl
  | contractBytearray =>
    intro bs fuel suffix h _ hf
    obtain ⟨f, rfl⟩ : ∃ f, fuel = f + 1 := ⟨fuel - 1, by simp [costT] at hf; omega⟩
    cases h; rfl
  | tvar n =>
    intro bs fuel suffix h _ hf
    obtain ⟨f, rfl⟩ : ∃ f, fuel = f + 1 := ⟨fuel - 1, by simp [costT] at hf; omega⟩
    cases h; rfl
  | bytes size =>
    intro bs fuel suffix h hrep hf
    obtain ⟨f, rfl⟩ : ∃ f, fuel = f + 1 := ⟨fuel - 1, by simp [costT] at hf; omega⟩
    obtain ⟨f, rfl⟩ : ∃ f2, f = f2 + 1 := ⟨f - 1, by simp [costT] at hf; omega⟩
    cases h
    simp only [List.cons_append]
    rw [deserTy_head151]
    cases size with
    | unsized =>
      rw [deserValue_serializeInt (f + 0) (-1) suffix (by norm_num [bigUintToBytesBE])]
      rfl
    | sized n =>
      simp only [Ty.reprOk, decide_eq_true_eq] at hrep
      rw [deserValue_serializeInt (f + 0) (n : Int) suffix (by
        calc (bigUintToBytesBE ((n : Int).natAbs - 64)).length
            ≤ 8 := bigUintToBytesBE_length_le _ 8 (by omega) (by norm_num; omega)
          _ < 2 ^ 64 := by norm_num)]
      dsimp only
      rw [if_neg (by omega : ¬ ((n : Int) = -1)), if_pos (by omega : (0 : Int) ≤ (n : Int))]
      rw [if_pos (by omega : (n : Int).toNat < 2 ^ 64)]
      have : (n : Int).toNat = n := by omega
      rw [this]
  | list t ih =>
    intro bs fuel suffix h hrep hf
    obtain ⟨f, rfl⟩ : ∃ f, fuel = f + 1 := ⟨fuel - 1, by simp [costT] at hf; omega⟩
    simp only [Ty.serialize] at h
    cases hsh : Ty.serialize t with
    | error e => rw [hsh] at h; exact absurd h (by simp [Except.map])
    | ok tb =>
      rw [hsh] at h
      simp only [Except.map] at h
      cases h
      simp only [List.cons_append]
      rw [deserTy_head39]
      rw [ih tb f suffix hsh (by simpa [Ty.reprOk] using hrep) (by simp [costT] at hf; omega)]
  | tuple ts ih =>
    intro bs fuel suffix h hrep hf
    obtain ⟨f, rfl⟩ : ∃ f, fuel = f + 1 := ⟨fuel - 1, by simp [costT] at hf; omega⟩
    obtain ⟨f, rfl⟩ : ∃ f2, f = f2 + 1 := ⟨f - 1, by simp [costT] at hf; omega⟩
    simp only [Ty.serialize] at h
    by_cases hlen : ts.length < 256
    · rw [if_pos hlen] at h
      cases hsh : Tys.serializeEach ts with
      | error e => rw [hsh] at h; exact absurd h (by simp [Except.map])
      | ok body =>
        rw [hsh] at h
        simp only [Except.map] at h
        cases h
        simp only [List.cons_append]
        rw [deserTy_head55]
        show (match deserTyMany (f + 1) (ts.length :: (body ++ suffix)) with
          | .ok (ts', r) => RRes.ok (Ty.tuple ts', r)
          | .err e => .err e
          | .panic => .panic) = _
        have : deserTyMany (f + 1) (ts.length :: (body ++ suffix)) =
            deserTyLoop f ts.length (body ++ suffix) := rfl
        rw [this, ih body f suffix hsh (by simpa [Ty.reprOk] using hrep)
          (by simp [costT] at hf; omega)]
    · rw [if_neg hlen] at h; exact absurd h (by simp)
  | variant ts ih =>
    intro bs fuel suffix h hrep hf
    obtain ⟨f, rfl⟩ : ∃ f, fuel = f + 1 := ⟨fuel - 1, by simp [costT] at hf; omega⟩
    obtain ⟨f, rfl⟩ : ∃ f2, f = f2 + 1 := ⟨f - 1, by simp [costT] at hf; omega⟩
    simp only [Ty.serialize] at h
    by_cases hlen : ts.length < 256
    · rw [if_pos hlen] at h
      cases hsh : Tys.serializeEach ts with
      | error e => rw [hsh] at h; exact absurd h (by simp [Except.map])
      | ok body =>
        rw [hsh] at h
        simp only [Except.map] at h
        cases h
        simp only [List.cons_append]
        rw [deserTy_head135]
        show (match deserTyMany (f + 1) (ts.length :: (body ++ suffix)) with
          | .ok (ts', r) => RRes.ok (Ty.variant ts', r)
          | .err e => .err e
          | .panic => .panic) = _
        have : deserTyMany (f + 1) (ts.length :: (body ++ suffix)) =
            deserTyLoop f ts.length (body ++ suffix) := rfl
        rw [this, ih body f suffix hsh (by simpa [Ty.reprOk] using hrep)
          (by simp [costT] at hf; omega)]
    · rw [if_neg hlen] at h; exact absurd h (by simp)
  | map key val ihk ihv =>
    intro bs fuel suffix h hrep hf
    obtain ⟨f, rfl⟩ : ∃ f, fuel = f + 1 := ⟨fuel - 1, by simp [costT] at hf; omega⟩
    simp only [Ty.serialize] at h
    cases hsk : Ty.serialize key with
    | error e => rw [hsk] at h; exact absurd h (by simp)
    | ok kb =>
      rw [hsk] at h
      cases hsv : Ty.serialize val with
      | error e => rw [hsv] at h; exact absurd h (by simp)
      | ok vb =>
        rw [hsv] at h
        cases h
        simp only [Ty.reprOk, Bool.and_eq_true] at hrep
        simp only [List.cons_append, List.append_assoc]
        rw [deserTy_head103]
        rw [ihk kb f (vb ++ suffix) hsk hrep.1 (by simp [costT] at hf; omega)]
        dsimp only
        rw [ihv vb f suffix hsv hrep.2 (by simp [costT] at hf; omega)]
  | nil =>
    rename_i bs fuel suffix h _ hf
    obtain ⟨f, rfl⟩ : ∃ f, fuel = f + 1 := ⟨fuel - 1, by simp [costTs] at hf; omega⟩
    cases h
    rfl
  | cons hd tl ihh iht =>
    rename_i bs fuel suffix h hrep hf
    obtain ⟨f, rfl⟩ : ∃ f, fuel = f + 1 := ⟨fuel - 1, by simp [costTs] at hf; omega⟩
    simp only [Tys.serializeEach] at h
    cases hsh : Ty.serialize hd with
    | error e => rw [hsh] at h; exact absurd h (by simp)
    | ok hb =>
      rw [hsh] at h
      cases hst : Tys.serializeEach tl with
      | error e => rw [hst] at h; exact absurd h (by simp)
      | ok tb =>
        rw [hst] at h
        cases h
        simp only [Tys.reprOkEach, Bool.and_eq_true] at hrep
        simp only [Tys.length]
        show deserTyLoop (f + 1) (1 + tl.length) ((hb ++ tb) ++ suffix) = _
        rw [show 1 + tl.length = tl.length + 1 from by omega]
        show (match deserTy f ((hb ++ tb) ++ suffix) with
          | .ok (t, rest) =>
            match deserTyLoop f tl.length rest with
            | .ok (ts, rest') => RRes.ok (Tys.cons t ts, rest')
            | .err e => .err e
            | .panic => .panic
          | .err e => .err e
          | .panic => .panic) = _
        rw [List.append_assoc]
        rw [ihh hb f (tb ++ suffix) hsh hrep.1 (by simp [costTs] at hf; omega)]
        dsimp only
        rw [iht tb f suffix hst hrep.2 (by simp [costTs] at hf; omega)]

/-! ### Laws of `Value::cmp` needed for map re-insertion -/

/-- Comparison keys: the ordinal plus the same-ordinal fallback payload
(`Boolean`/`Integer`/`String` compare naturally, everything else
compares `Equal`). -/
inductive SubKey where
  | b (p : Bool)
  | i (n : Int)
  | s (l : List Nat)
  | u
deriving DecidableEq

def subCmp : SubKey → SubKey → Ordering
  | .b p, .b q => compare p q
  | .i m, .i n => compare m n
  | .s x, .s y => listCmp x y
  | _, _ => .eq

def okey : Value → Option (Nat × SubKey)
  | .integer n => some (0, .i n)
  | .boolean p => some (1, .b p)
  | .address _ => some (2, .u)
  | .channel _ => some (3, .u)
  | .contract _ => some (4, .u)
  | .oracle _ => some (5, .u)
  | .bytes _ => some (6, .u)
  | .bits _ => some (7, .u)
  | .string s => some (8, .s s)
  | .tuple _ => some (9, .u)
  | .map _ => some (10, .u)
  | .list _ => some (11, .u)
  | .variant _ _ _ => some (12, .u)
  | .oracleQuery _ => some (13, .u)
  | .contractBytearray _ => some (14, .u)
  | .typerep _ => none
  | .storeMap _ _ => none

def keyCmp : Nat × SubKey → Nat × SubKey → Ordering
  | (x, sa), (y, sb) => if x = y then subCmp sa sb else compare x y

theorem cmp_eq_keyCmp (a b : Value) :
    Value.cmp a b =
      (match okey a, okey b with
       | some ka, some kb => some (keyCmp ka kb)
       | _, _ => none) := by
  cases a <;> cases b <;> rfl

theorem listCmp_lt_asymm : ∀ x y : List Nat, listCmp x y = .lt → listCmp y x = .gt := by
  intro x
  induction x with
  | nil => intro y h; cases y <;> simp_all [listCmp]
  | cons a as ih =>
    intro y h
    cases y with
    | nil => simp [listCmp] at h
    | cons b bs =>
      simp only [listCmp] at h ⊢
      cases hc : compare a b with
      | lt =>
        have : compare b a = .gt := Nat.compare_eq_gt.mpr (Nat.compare_eq_lt.mp hc)
        simp [this]
      | eq =>
        have hab : a = b := Nat.compare_eq_eq.mp hc
        subst hab
        rw [hc] at h
        have : compare a a = Ordering.eq := Nat.compare_eq_eq.mpr rfl
        rw [this]
        exact ih bs h
      | gt => rw [hc] at h; simp at h

theorem listCmp_lt_trans : ∀ x y z : List Nat,
    listCmp x y = .lt → listCmp y z = .lt → listCmp x z = .lt := by
  intro x
  induction x with
  | nil =>
    intro y z h1 h2
    cases y with
    | nil => simp [listCmp] at h1
    | cons b bs => cases z with
      | nil => simp [listCmp] at h2
      | cons c cs => simp [listCmp]
  | cons a as ih =>
    intro y z h1 h2
    cases y with
    | nil => simp [listCmp] at h1
    | cons b bs =>
      cases z with
      | nil => simp [listCmp] at h2
      | cons c cs =>
        simp only [listCmp] at h1 h2 ⊢
        cases hab : compare a b with
        | gt => rw [hab] at h1; simp at h1
        | lt =>
          have hab' := Nat.compare_eq_lt.mp hab
          cases hbc : compare b c with
          | gt => rw [hbc] at h2; simp at h2
          | lt =>
            have hbc' := Nat.compare_eq_lt.mp hbc
            rw [Nat.compare_eq_lt.mpr (by omega : a < c)]
          | eq =>
            have hbc' := Nat.compare_eq_eq.mp hbc
            rw [Nat.compare_eq_lt.mpr (by omega : a < c)]
        | eq =>
          have hab' := Nat.compare_eq_eq.mp hab
          rw [hab] at h1
          cases hbc : compare b c with
          | gt => rw [hbc] at h2; simp at h2
          | lt =>
            have hbc' := Nat.compare_eq_lt.mp hbc
            rw [Nat.compare_eq_lt.mpr (by omega : a < c)]
          | eq =>
            have hbc' := Nat.compare_eq_eq.mp hbc
            rw [hbc] at h2
            rw [Nat.compare_eq_eq.mpr (by omega : a = c)]
            exact ih bs cs h1 h2

theorem subCmp_lt_asymm (sa sb : SubKey) (h : subCmp sa sb = .lt) : subCmp sb sa = .gt := by
  cases sa <;> cases sb <;> simp_all [subCmp]
  · next p q => exact compare_gt_iff_gt.mpr (compare_lt_iff_lt.mp h)
  · next m n => exact compare_gt_iff_gt.mpr (compare_lt_iff_lt.mp h)
  · next x y => exact listCmp_lt_asymm x y h

theorem subCmp_lt_trans (sa sb sc : SubKey) (h1 : subCmp sa sb = .lt)
    (h2 : subCmp sb sc = .lt) : subCmp sa sc = .lt := by
  cases sa <;> cases sb <;> cases sc <;> simp_all [subCmp]
  · next p q r =>
    exact compare_lt_iff_lt.mpr (lt_trans (compare_lt_iff_lt.mp h1) (compare_lt_iff_lt.mp h2))
  · next m n p =>
    exact compare_lt_iff_lt.mpr (lt_trans (compare_lt_iff_lt.mp h1) (compare_lt_iff_lt.mp h2))
  · next x y z => exact listCmp_lt_trans x y z h1 h2

theorem keyCmp_lt_asymm (ka kb : Nat × SubKey) (h : keyCmp ka kb = .lt) :
    keyCmp kb ka = .gt := by
  obtain ⟨x, sa⟩ := ka
  obtain ⟨y, sb⟩ := kb
  simp only [keyCmp] at h ⊢
  by_cases hxy : x = y
  · subst hxy
    rw [if_pos rfl] at h ⊢
    exact subCmp_lt_asymm sa sb h
  · rw [if_neg hxy] at h
    rw [if_neg (Ne.symm hxy)]
    exact Nat.compare_eq_gt.mpr (Nat.compare_eq_lt.mp h)

theorem keyCmp_lt_trans (ka kb kc : Nat × SubKey) (h1 : keyCmp ka kb = .lt)
    (h2 : keyCmp kb kc = .lt) : keyCmp ka kc = .lt := by
  obtain ⟨x, sa⟩ := ka
  obtain ⟨y, sb⟩ := kb
  obtain ⟨z, sc⟩ := kc
  simp only [keyCmp] at h1 h2 ⊢
  by_cases hxy : x = y <;> by_cases hyz : y = z
  · subst hxy; subst hyz
    rw [if_pos rfl] at h1 h2 ⊢
    exact subCmp_lt_trans sa sb sc h1 h2
  · subst hxy
    rw [if_pos rfl] at h1
    rw [if_neg hyz] at h2
    rw [if_neg hyz]
    exact h2
  · subst hyz
    rw [if_neg hxy] at h1
    rw [if_pos rfl] at h2
    rw [if_neg hxy]
    exact h1
  · rw [if_neg hxy] at h1
    rw [if_neg hyz] at h2
    have hx := Nat.compare_eq_lt.mp h1
    have hy := Nat.compare_eq_lt.mp h2
    rw [if_neg (by omega : ¬ x = z)]
    exact Nat.compare_eq_lt.mpr (by omega)

theorem cmp_lt_asymm {a b : Value} (h : Value.cmp a b = some .lt) :
    Value.cmp b a = some .gt := by
  rw [cmp_eq_keyCmp] at h ⊢
  cases hka : okey a with
  | none => rw [hka] at h; cases hkb : okey b <;> rw [hkb] at h <;> simp at h
  | some ka =>
    cases hkb : okey b with
    | none => rw [hka, hkb] at h; simp at h
    | some kb =>
      rw [hka, hkb] at h
      simp only at h
      have := keyCmp_lt_asymm ka kb (by injection h)
      simp [this]

theorem cmp_lt_trans {a b c : Value} (h1 : Value.cmp a b = some .lt)
    (h2 : Value.cmp b c = some .lt) : Value.cmp a c = some .lt := by
  rw [cmp_eq_keyCmp] at h1 h2 ⊢
  cases hka : okey a with
  | none => rw [hka] at h1; cases hkb : okey b <;> rw [hkb] at h1 <;> simp at h1
  | some ka =>
    cases hkb : okey b with
    | none => rw [hka, hkb] at h1; simp at h1
    | some kb =>
      cases hkc : okey c with
      | none => rw [hkb, hkc] at h2; simp at h2
      | some kc =>
        rw [hka, hkb] at h1
        rw [hkb, hkc] at h2
        simp only at h1 h2 ⊢
        have := keyCmp_lt_trans ka kb kc (by injection h1) (by injection h2)
        simp [this]

/-! ### Re-inserting a sorted pair sequence reproduces it -/

theorem valuePairs_ind (motive : ValuePairs → Prop) (nil : motive .nil)
    (cons : ∀ k v t, motive t → motive (.cons k v t)) : ∀ ps, motive ps
  | .nil => nil
  | .cons k v t => cons k v t (valuePairs_ind motive nil cons t)

theorem values_ind (motive : Values → Prop) (nil : motive .nil)
    (cons : ∀ h t, motive t → motive (.cons h t)) : ∀ vs, motive vs
  | .nil => nil
  | .cons h t => cons h t (values_ind motive nil cons t)

def ValuePairs.append : ValuePairs → ValuePairs → ValuePairs
  | .nil, q => q
  | .cons k v t, q => .cons k v (ValuePairs.append t q)

theorem push_eq_append (acc : ValuePairs) (k v : Value) :
    acc.push k v = acc.append (.cons k v .nil) := by
  induction acc using valuePairs_ind with
  | nil => rfl
  | cons k' v' t ih => simp [ValuePairs.push, ValuePairs.append, ih]

theorem append_assoc_pairs (p q r : ValuePairs) :
    (p.append q).append r = p.append (q.append r) := by
  induction p using valuePairs_ind with
  | nil => rfl
  | cons k v t ih => simp [ValuePairs.append, ih]

theorem insertPair_append (acc : ValuePairs) (k v : Value) (h : allKeysLt acc k = true) :
    insertPair acc k v = some (acc.push k v) := by
  induction acc using valuePairs_ind with
  | nil => rfl
  | cons k' v' t ih =>
    simp only [allKeysLt, Bool.and_eq_true, decide_eq_true_eq] at h
    simp only [insertPair, ValuePairs.push]
    rw [cmp_lt_asymm h.1]
    rw [ih h.2]
    rfl

theorem allKeysLt_mono (acc : ValuePairs) (k k2 : Value) (h : allKeysLt acc k = true)
    (hlt : Value.cmp k k2 = some .lt) : allKeysLt acc k2 = true := by
  induction acc using valuePairs_ind with
  | nil => rfl
  | cons k' v' t ih =>
    simp only [allKeysLt, Bool.and_eq_true, decide_eq_true_eq] at h ⊢
    exact ⟨cmp_lt_trans h.1 hlt, ih h.2⟩

theorem allKeysLt_push (acc : ValuePairs) (k v k2 : Value) (h : allKeysLt acc k2 = true)
    (hlt : Value.cmp k k2 = some .lt) : allKeysLt (acc.push k v) k2 = true := by
  induction acc using valuePairs_ind with
  | nil => simp [ValuePairs.push, allKeysLt, hlt]
  | cons k' v' t ih =>
    simp only [allKeysLt, Bool.and_eq_true, decide_eq_true_eq] at h ⊢
    exact ⟨h.1, ih h.2⟩

def appendPairs : ValuePairs → ValuePairs → ValuePairs
  | acc, .nil => acc
  | acc, .cons k v t => appendPairs (acc.push k v) t

theorem buildMap_sorted : ∀ ps acc, chainSorted ps = true →
    (match ps with | .nil => True | .cons k _ _ => allKeysLt acc k = true) →
    buildMap (interleave ps) acc = some (appendPairs acc ps) := by
  intro ps
  induction ps using valuePairs_ind with
  | nil => intro acc _ _; rfl
  | cons k v t ih =>
    intro acc hchain hlt
    simp only at hlt
    simp only [interleave, buildMap]
    rw [insertPair_append acc k v hlt]
    show buildMap (interleave t) (acc.push k v) = some (appendPairs (acc.push k v) t)
    cases t with
    | nil => rfl
    | cons k' v' t' =>
      simp only [chainSorted, Bool.and_eq_true, decide_eq_true_eq] at hchain
      exact ih (acc.push k v) hchain.2
        (by
          simp only
          exact allKeysLt_push acc k v k' (allKeysLt_mono acc k k' hlt hchain.1) hchain.1)

theorem append_nil_pairs (p : ValuePairs) : p.append .nil = p := by
  induction p using valuePairs_ind with
  | nil => rfl
  | cons k v t ih => simp [ValuePairs.append, ih]

theorem appendPairs_eq_append : ∀ ps acc, appendPairs acc ps = acc.append ps := by
  intro ps
  induction ps using valuePairs_ind with
  | nil => intro acc; rw [append_nil_pairs]; rfl
  | cons k v t ih =>
    intro acc
    show appendPairs (acc.push k v) t = _
    rw [ih (acc.push k v), push_eq_append, append_assoc_pairs]
    rfl

theorem buildMap_interleave (ps : ValuePairs) (h : chainSorted ps = true) :
    buildMap (interleave ps) .nil = some ps := by
  rw [buildMap_sorted ps .nil h (by cases ps <;> simp [allKeysLt])]
  rw [appendPairs_eq_append]
  rfl

/-! ### The main value round-trip -/

theorem serializeString_ne_nil (s : List Nat) : serializeString s ≠ [] := by
  unfold serializeString
  split
  · simp
  · split <;> simp

theorem values_length_zero (vs : Values) (h : vs.length = 0) : vs = .nil := by
  cases vs with
  | nil => rfl
  | cons a t => simp [Values.length] at h

/-- The first byte of any serialized type is one of the 13 type tags. -/
theorem tySerialize_shape (t : Ty) (bs : List Nat) (h : Ty.serialize t = .ok bs) :
    ∃ c rest, bs = c :: rest ∧
      (c = 7 ∨ c = 23 ∨ c = 247 ∨ c = 87 ∨ c = 119 ∨ c = 167 ∨ c = 231 ∨ c = 55 ∨
       c = 135 ∨ c = 151 ∨ c = 39 ∨ c = 103 ∨ c = 71) := by
  cases t <;> simp only [Ty.serialize] at h
  case any => cases h; exact ⟨247, [], rfl, by norm_num⟩
  case boolean => cases h; exact ⟨23, [], rfl, by norm_num⟩
  case integer => cases h; exact ⟨7, [], rfl, by norm_num⟩
  case bits => cases h; exact ⟨87, [], rfl, by norm_num⟩
  case string => cases h; exact ⟨119, [], rfl, by norm_num⟩
  case address => cases h; exact ⟨71, [0], rfl, by norm_num⟩
  case contract => cases h; exact ⟨71, [2], rfl, by norm_num⟩
  case oracle => cases h; exact ⟨71, [3], rfl, by norm_num⟩
  case oracleQuery => cases h; exact ⟨71, [4], rfl, by norm_num⟩
  case channel => cases h; exact ⟨71, [5], rfl, by norm_num⟩
  case contractBytearray => cases h; exact ⟨167, [], rfl, by norm_num⟩
  case tvar n => cases h; exact ⟨231, [n], rfl, by norm_num⟩
  case bytes size => cases h; exact ⟨151, _, rfl, by norm_num⟩
  case list t =>
    cases hs : Ty.serialize t with
    | error e => rw [hs] at h; exact absurd h (by simp [Except.map])
    | ok tb =>
      rw [hs] at h
      simp only [Except.map] at h
      cases h
      exact ⟨39, tb, rfl, by norm_num⟩
  case tuple ts =>
    split at h
    · cases hs : Tys.serializeEach ts with
      | error e => rw [hs] at h; exact absurd h (by simp [Except.map])
      | ok body =>
        rw [hs] at h
        simp only [Except.map] at h
        cases h
        exact ⟨55, _, rfl, by norm_num⟩
    · exact absurd h (by simp)
  case variant ts =>
    split at h
    · cases hs : Tys.serializeEach ts with
      | error e => rw [hs] at h; exact absurd h (by simp [Except.map])
      | ok body =>
        rw [hs] at h
        simp only [Except.map] at h
        cases h
        exact ⟨135, _, rfl, by norm_num⟩
    · exact absurd h (by simp)
  case map key val =>
    cases hsk : Ty.serialize key with
    | error e => rw [hsk] at h; exact absurd h (by simp)
    | ok kb =>
      rw [hsk] at h
      cases hsv : Ty.serialize val with
      | error e => rw [hsv] at h; exact absurd h (by simp)
      | ok vb =>
        rw [hsv] at h
        cases h
        exact ⟨103, _, rfl, by norm_num⟩

/-- Bytes starting with a type tag dispatch `Value::try_deserialize`
to `Type::deserialize`. -/
theorem deserValue_typeTagArm (fuel c : Nat) (rest : List Nat)
    (hc : c = 7 ∨ c = 23 ∨ c = 247 ∨ c = 87 ∨ c = 119 ∨ c = 167 ∨ c = 231 ∨ c = 55 ∨
      c = 135 ∨ c = 151 ∨ c = 39 ∨ c = 103 ∨ c = 71) :
    deserValue (fuel + 1) (c :: rest) =
      (match deserTy fuel (c :: rest) with
       | .ok (t, r) => .ok (.typerep t, r)
       | .err e => .err e
       | .panic => .panic) := by
  rcases hc with rfl | rfl | rfl | rfl | rfl | rfl | rfl | rfl | rfl | rfl | rfl | rfl | rfl <;> rfl

/-- Decoding a tuple framing, given that the element sequence decodes. -/
theorem deserValue_tupleFrame (vs : Values) (body : List Nat) (fuel : Nat) (suffix : List Nat)
    (ih : ∀ fuel suffix, costVs vs ≤ fuel → deserMany fuel vs.length (body ++ suffix) = .ok (vs, suffix))
    (hlen : vs.length - 16 < 2 ^ 64) (hf : 1 + costVs vs ≤ fuel) :
    deserValue fuel (tupleFrame vs.length body ++ suffix) = .ok (.tuple vs, suffix) := by
  obtain ⟨f, rfl⟩ : ∃ f, fuel = f + 1 := ⟨fuel - 1, by omega⟩
  unfold tupleFrame
  by_cases h0 : vs.length = 0
  · rw [if_pos h0, values_length_zero vs h0]
    simp only [List.singleton_append]
    exact deserValue_head63 f suffix
  · rw [if_neg h0]
    by_cases h16 : vs.length < 16
    · rw [if_pos h16]
      simp only [List.cons_append]
      rw [deserValue_short_tuple f vs.length (body ++ suffix) (by omega) h16]
      rw [ih f suffix (by omega)]
    · rw [if_neg h16]
      simp only [List.cons_append, List.append_assoc]
      rw [deserValue_head11]
      rw [rlpDecodeBytes_serialize _ _ (by
        calc (usizeToMinBeBytes (vs.length - 16)).length
            ≤ 8 := usizeToMinBeBytes_length_le _ 8 (by norm_num at hlen ⊢; omega)
          _ < 2 ^ 64 := by norm_num)]
      dsimp only
      rw [usizeToMinBeBytes_sound]
      rw [if_pos hlen]
      rw [show vs.length - 16 + 16 = vs.length from by omega]
      rw [ih f suffix (by omega)]

/-- Decoding a list framing, given that the element sequence decodes. -/
theorem deserValue_listFrame (vs : Values) (body : List Nat) (fuel : Nat) (suffix : List Nat)
    (ih : ∀ fuel suffix, costVs vs ≤ fuel → deserMany fuel vs.length (body ++ suffix) = .ok (vs, suffix))
    (hlen : vs.length - 16 < 2 ^ 64) (hf : 1 + costVs vs ≤ fuel) :
    deserValue fuel (listFrame vs.length body ++ suffix) = .ok (.list vs, suffix) := by
  obtain ⟨f, rfl⟩ : ∃ f, fuel = f + 1 := ⟨fuel - 1, by omega⟩
  unfold listFrame
  by_cases h16 : vs.length < 16
  · rw [if_pos h16]
    simp only [List.cons_append]
    rw [deserValue_short_list f vs.length (body ++ suffix) h16]
    rw [ih f suffix (by omega)]
  · rw [if_neg h16]
    simp only [List.cons_append, List.append_assoc]
    rw [deserValue_head31]
    rw [rlpDecodeBytes_serialize _ _ (by
      calc (usizeToMinBeBytes (vs.length - 16)).length
          ≤ 8 := usizeToMinBeBytes_length_le _ 8 (by norm_num at hlen ⊢; omega)
        _ < 2 ^ 64 := by norm_num)]
    dsimp only
    rw [usizeToMinBeBytes_sound]
    rw [if_pos hlen]
    rw [show vs.length - 16 + 16 = vs.length from by omega]
    rw [ih f suffix (by omega)]

theorem deserValue_serialize (v : Value) :
    ∀ bs fuel suffix, Value.serialize v = .ok bs → Value.reprOk v = true → costV v ≤ fuel →
      deserValue fuel (bs ++ suffix) = .ok (v, suffix) := by
  induction v using Value.rec
    (motive_2 := fun vs => ∀ bs fuel suffix, Values.serializeEach vs = .ok bs →
      Values.reprOkEach vs = true → costVs vs ≤ fuel →
      deserMany fuel vs.length (bs ++ suffix) = .ok (vs, suffix))
    (motive_3 := fun ps => ∀ bs fuel suffix, ValuePairs.serializeEach ps = .ok bs →
      ValuePairs.reprOkEach ps = true → costVPs ps ≤ fuel →
      deserMany fuel (2 * ps.length) (bs ++ suffix) = .ok (interleave ps, suffix))
  case boolean b =>
    intro bs fuel suffix h _ hf
    obtain ⟨f, rfl⟩ : ∃ f, fuel = f + 1 := ⟨fuel - 1, by simp [costV] at hf; omega⟩
    cases b <;> cases h
    · exact deserValue_head127 f suffix
    · exact deserValue_head255 f suffix
  case integer n =>
    intro bs fuel suffix h hrep hf
    obtain ⟨f, rfl⟩ : ∃ f, fuel = f + 1 := ⟨fuel - 1, by simp [costV] at hf; omega⟩
    cases h
    simp only [Value.reprOk, decide_eq_true_eq] at hrep
    exact deserValue_serializeInt f n suffix hrep
  case bits n =>
    intro bs fuel suffix h hrep hf
    obtain ⟨f, rfl⟩ : ∃ f, fuel = f + 1 := ⟨fuel - 1, by simp [costV] at hf; omega⟩
    cases h
    simp only [Value.reprOk, decide_eq_true_eq] at hrep
    by_cases hneg : n < 0
    · simp only [hneg, if_true, List.cons_append]
      rw [deserValue_head207, rlpDecodeBytes_serialize _ suffix hrep]
      dsimp only
      rw [bigUintToBytesBE_sound]
      have : -(n.natAbs : Int) = n := by omega
      rw [this]
    · simp only [hneg, if_false, List.cons_append]
      rw [deserValue_head79, rlpDecodeBytes_serialize _ suffix hrep]
      dsimp only
      rw [bigUintToBytesBE_sound]
      have : (n.natAbs : Int) = n := by omega
      rw [this]
  case string s =>
    intro bs fuel suffix h hrep hf
    obtain ⟨f, rfl⟩ : ∃ f, fuel = f + 2 := ⟨fuel - 2, by simp [costV] at hf; omega⟩
    cases h
    simp only [Value.reprOk, decide_eq_true_eq] at hrep
    exact deserValue_serializeString f s suffix hrep
  case bytes s =>
    intro bs fuel suffix h hrep hf
    obtain ⟨f, rfl⟩ : ∃ f, fuel = f + 3 := ⟨fuel - 3, by simp [costV] at hf; omega⟩
    cases h
    simp only [Value.reprOk, decide_eq_true_eq] at hrep
    simp only [List.cons_append]
    rw [show f + 3 = (f + 2) + 1 from rfl, deserValue_head159]
    have hl : 1 ≤ (serializeString s).length :=
      List.length_pos.mpr (serializeString_ne_nil s)
    rw [if_neg (by simp only [List.length_cons, List.length_append]; omega)]
    dsimp only
    rw [if_pos rfl]
    rw [deserValue_serializeString f s suffix hrep]
  case address s =>
    intro bs fuel suffix h hrep hf
    obtain ⟨f, rfl⟩ : ∃ f, fuel = f + 1 := ⟨fuel - 1, by simp [costV] at hf; omega⟩
    cases h
    simp only [Value.reprOk, decide_eq_true_eq] at hrep
    simp only [List.cons_append]
    rw [deserValue_head159]
    rw [if_neg (by
      have := serialize_length_pos (.byteArray s)
      simp only [List.length_cons, List.length_append]
      omega)]
    dsimp only
    rw [if_neg (by norm_num : ¬ (0 = 1))]
    rw [rlpDecodeBytes_serialize _ suffix hrep]
    rfl
  case contract s =>
    intro bs fuel suffix h hrep hf
    obtain ⟨f, rfl⟩ : ∃ f, fuel = f + 1 := ⟨fuel - 1, by simp [costV] at hf; omega⟩
    cases h
    simp only [Value.reprOk, decide_eq_true_eq] at hrep
    simp only [List.cons_append]
    rw [deserValue_head159]
    rw [if_neg (by
      have := serialize_length_pos (.byteArray s)
      simp only [List.length_cons, List.length_append]
      omega)]
    dsimp only
    rw [if_neg (by norm_num : ¬ (2 = 1))]
    rw [rlpDecodeBytes_serialize _ suffix hrep]
    rfl
  case oracle s =>
    intro bs fuel suffix h hrep hf
    obtain ⟨f, rfl⟩ : ∃ f, fuel = f + 1 := ⟨fuel - 1, by simp [costV] at hf; omega⟩
    cases h
    simp only [Value.reprOk, decide_eq_true_eq] at hrep
    simp only [List.cons_append]
    rw [deserValue_head159]
    rw [if_neg (by
      have := serialize_length_pos (.byteArray s)
      simp only [List.length_cons, List.length_append]
      omega)]
    dsimp only
    rw [if_neg (by norm_num : ¬ (3 = 1))]
    rw [rlpDecodeBytes_serialize _ suffix hrep]
    rfl
  case oracleQuery s =>
    intro bs fuel suffix h hrep hf
    obtain ⟨f, rfl⟩ : ∃ f, fuel = f + 1 := ⟨fuel - 1, by simp [costV] at hf; omega⟩
    cases h
    simp only [Value.reprOk, decide_eq_true_eq] at hrep
    simp only [List.cons_append]
    rw [deserValue_head159]
    rw [if_neg (by
      have := serialize_length_pos (.byteArray s)
      simp only [List.length_cons, List.length_append]
      omega)]
    dsimp only
    rw [if_neg (by norm_num : ¬ (4 = 1))]
    rw [rlpDecodeBytes_serialize _ suffix hrep]
    rfl
  case channel s =>
    intro bs fuel suffix h hrep hf
    obtain ⟨f, rfl⟩ : ∃ f, fuel = f + 1 := ⟨fuel - 1, by simp [costV] at hf; omega⟩
    cases h
    simp only [Value.reprOk, decide_eq_true_eq] at hrep
    simp only [List.cons_append]
    rw [deserValue_head159]
    rw [if_neg (by
      have := serialize_length_pos (.byteArray s)
      simp only [List.length_cons, List.length_append]
      omega)]
    dsimp only
    rw [if_neg (by norm_num : ¬ (5 = 1))]
    rw [rlpDecodeBytes_serialize _ suffix hrep]
    rfl
  case contractBytearray s =>
    intro bs fuel suffix h hrep hf
    obtain ⟨f, rfl⟩ : ∃ f, fuel = f + 2 := ⟨fuel - 2, by simp [costV] at hf; omega⟩
    cases h
    simp only [Value.reprOk, decide_eq_true_eq] at hrep
    simp only [List.cons_append, List.append_assoc]
    rw [show f + 2 = (f + 1) + 1 from rfl, deserValue_head143]
    rw [deserValue_serializeInt f (s.length : Int) (s ++ suffix) (by
      calc (bigUintToBytesBE ((s.length : Int).natAbs - 64)).length
          ≤ 8 := bigUintToBytesBE_length_le _ 8 (by omega) (by norm_num; omega)
        _ < 2 ^ 64 := by norm_num)]
    dsimp only
    rw [if_pos (by omega : (0 : Int) ≤ (s.length : Int))]
    have ht : ((s.length : Int)).toNat = s.length := by omega
    rw [ht, if_pos hrep]
    rw [if_pos (by simp only [List.length_append]; omega)]
    rw [List.take_left, List.drop_left]
  case typerep t =>
    intro bs fuel suffix h hrep hf
    obtain ⟨f, rfl⟩ : ∃ f, fuel = f + 1 := ⟨fuel - 1, by simp [costV] at hf; omega⟩
    obtain ⟨c, rest, rfl, hc⟩ := tySerialize_shape t bs h
    simp only [List.cons_append]
    rw [deserValue_typeTagArm f c (rest ++ suffix) hc]
    rw [show (c :: (rest ++ suffix)) = (c :: rest) ++ suffix from rfl]
    rw [deserTy_serialize t (c :: rest) f suffix h (by simpa [Value.reprOk] using hrep)
      (by simp [costV] at hf; omega)]
  case tuple elems ih =>
    intro bs fuel suffix h hrep hf
    simp only [Value.serialize] at h
    cases hse : Values.serializeEach elems with
    | error e => rw [hse] at h; exact absurd h (by simp [Except.map])
    | ok body =>
      rw [hse] at h
      simp only [Except.map] at h
      cases h
      simp only [Value.reprOk, Bool.and_eq_true, decide_eq_true_eq] at hrep
      exact deserValue_tupleFrame elems body fuel suffix
        (fun fuel suffix hfu => ih body fuel suffix hse hrep.2 hfu) hrep.1
        (by simp [costV] at hf; omega)
  case list elems ih =>
    intro bs fuel suffix h hrep hf
    simp only [Value.serialize] at h
    cases hse : Values.serializeEach elems with
    | error e => rw [hse] at h; exact absurd h (by simp [Except.map])
    | ok body =>
      rw [hse] at h
      simp only [Except.map] at h
      cases h
      simp only [Value.reprOk, Bool.and_eq_true, decide_eq_true_eq] at hrep
      exact deserValue_listFrame elems body fuel suffix
        (fun fuel suffix hfu => ih body fuel suffix hse hrep.2 hfu) hrep.1
        (by simp [costV] at hf; omega)
  case map entries ih =>
    intro bs fuel suffix h hrep hf
    cases entries with
    | nil =>
      obtain ⟨f, rfl⟩ : ∃ f, fuel = f + 2 := ⟨fuel - 2, by simp [costV, costVPs] at hf; omega⟩
      cases h
      simp only [List.cons_append, List.append_assoc, List.append_nil]
      rw [deserValue_head47]
      rw [show usizeToMinBeBytes (ValuePairs.length .nil) = usizeToMinBeBytes 0 from rfl]
      rw [rlpDecodeBytes_serialize _ suffix (by norm_num [usizeToMinBeBytes, beDigits])]
      dsimp only
      rw [usizeToMinBeBytes_sound]
      rw [if_pos (by norm_num)]
      rfl
    | cons k0 v0 t =>
      obtain ⟨f, rfl⟩ : ∃ f, fuel = f + 1 := ⟨fuel - 1, by simp [costV] at hf; omega⟩
      simp only [Value.reprOk, Bool.and_eq_true, decide_eq_true_eq] at hrep
      obtain ⟨⟨hlen, hsort⟩, hrepE⟩ := hrep
      simp only [Value.serialize] at h
      by_cases hmk : hasMapKey (.cons k0 v0 t) = true
      · rw [if_pos hmk] at h; exact absurd h (by simp)
      rw [if_neg hmk] at h
      by_cases hkd : keysDiscrAll (Value.discr k0) (.cons k0 v0 t) = true
      case neg => rw [if_pos hkd] at h; exact absurd h (by simp)
      rw [if_neg (not_not_intro hkd)] at h
      by_cases hvd : valsDiscrAll (Value.discr v0) (.cons k0 v0 t) = true
      case neg => rw [if_pos hvd] at h; exact absurd h (by simp)
      rw [if_neg (not_not_intro hvd)] at h
      cases hse : ValuePairs.serializeEach (.cons k0 v0 t) with
      | error e => rw [hse] at h; exact absurd h (by simp [Except.map])
      | ok body =>
        rw [hse] at h
        simp only [Except.map] at h
        cases h
        simp only [List.cons_append, List.append_assoc]
        rw [deserValue_head47]
        rw [rlpDecodeBytes_serialize _ _ (by
          calc (usizeToMinBeBytes (ValuePairs.length (.cons k0 v0 t))).length
              ≤ 8 := usizeToMinBeBytes_length_le _ 8 (by norm_num at hlen ⊢; omega)
            _ < 2 ^ 64 := by norm_num)]
        dsimp only
        rw [usizeToMinBeBytes_sound]
        rw [if_pos hlen]
        rw [show ValuePairs.length (.cons k0 v0 t) * 2 = 2 * ValuePairs.length (.cons k0 v0 t) from by omega]
        rw [ih body f suffix hse hrepE (by simp [costV] at hf; omega)]
        dsimp only
        rw [buildMap_interleave _ hsort]
  case storeMap cache id ih =>
    intro bs fuel suffix h hrep hf
    obtain ⟨f, rfl⟩ : ∃ f, fuel = f + 1 := ⟨fuel - 1, by simp [costV] at hf; omega⟩
    simp only [Value.reprOk, decide_eq_true_eq] at hrep
    simp only [Value.serialize] at h
    cases cache with
    | cons k v t => exact absurd h (by simp)
    | nil =>
      cases h
      simp only [List.cons_append]
      rw [deserValue_head191]
      rw [rlpDecodeBytes_serialize _ suffix (by
        calc (usizeToMinBeBytes id).length
            ≤ 8 := usizeToMinBeBytes_length_le _ 8 (by norm_num at hrep ⊢; omega)
          _ < 2 ^ 64 := by norm_num)]
      dsimp only
      rw [usizeToMinBeBytes_sound]
      rw [if_pos hrep]
  case variant arities tag values ih =>
    intro bs fuel suffix h hrep hf
    obtain ⟨f, rfl⟩ : ∃ f, fuel = f + 1 := ⟨fuel - 1, by simp [costV] at hf; omega⟩
    simp only [Value.reprOk, Bool.and_eq_true, decide_eq_true_eq] at hrep
    obtain ⟨⟨hal, hvl⟩, hrepV⟩ := hrep
    simp only [Value.serialize] at h
    by_cases htag : tag < arities.length
    · rw [if_pos htag] at h
      by_cases harity : Values.length values = arities.getD tag 0
      · rw [if_pos harity] at h
        cases hse : Values.serializeEach values with
        | error e => rw [hse] at h; exact absurd h (by simp [Except.map])
        | ok body =>
          rw [hse] at h
          simp only [Except.map] at h
          cases h
          simp only [List.cons_append, List.append_assoc]
          rw [deserValue_head175]
          rw [rlpDecodeBytes_serialize _ _ hal]
          dsimp only [List.cons_append]
          rw [if_neg (by omega : ¬ (tag > arities.length))]
          have htuple := deserValue_tupleFrame values body f suffix
            (fun fuel suffix hfu => ih body fuel suffix hse hrepV hfu) hvl
            (by simp [costV] at hf; omega)
          rw [htuple]
          dsimp only
          rw [if_neg (by omega : ¬ (tag = arities.length))]
          rw [if_pos harity.symm]
      · rw [if_neg harity] at h; exact absurd h (by simp)
    · rw [if_neg htag] at h; exact absurd h (by simp)
  case nil =>
    rename_i bs fuel suffix h _ hf
    obtain ⟨f, rfl⟩ : ∃ f, fuel = f + 1 := ⟨fuel - 1, by simp [costVs] at hf; omega⟩
    cases h
    rfl
  case cons =>
    rename_i hd tl ihh iht bs fuel suffix h hrep hf
    obtain ⟨f, rfl⟩ : ∃ f, fuel = f + 1 := ⟨fuel - 1, by simp [costVs] at hf; omega⟩
    simp only [Values.serializeEach] at h
    cases hsh : Value.serialize hd with
    | error e => rw [hsh] at h; exact absurd h (by simp)
    | ok hb =>
      rw [hsh] at h
      cases hst : Values.serializeEach tl with
      | error e => rw [hst] at h; exact absurd h (by simp)
      | ok tb =>
        rw [hst] at h
        cases h
        simp only [Values.reprOkEach, Bool.and_eq_true] at hrep
        simp only [Values.length]
        rw [show 1 + Values.length tl = Values.length tl + 1 from by omega]
        show (match deserValue f ((hb ++ tb) ++ suffix) with
          | .ok (v, rest) =>
            match deserMany f (Values.length tl) rest with
            | .ok (vs, rest') => RRes.ok (Values.cons v vs, rest')
            | .err e => .err e
            | .panic => .panic
          | .err e => .err e
          | .panic => .panic) = _
        rw [List.append_assoc]
        rw [ihh hb f (tb ++ suffix) hsh hrep.1 (by simp [costVs] at hf; omega)]
        dsimp only
        rw [iht tb f suffix hst hrep.2 (by simp [costVs] at hf; omega)]
  case nil =>
    rename_i bs fuel suffix h _ hf
    obtain ⟨f, rfl⟩ : ∃ f, fuel = f + 1 := ⟨fuel - 1, by simp [costVPs] at hf; omega⟩
    cases h
    rfl
  case cons =>
    rename_i k v t ihk ihv iht bs fuel suffix h
    intro hrep hf
    obtain ⟨f, rfl⟩ : ∃ f, fuel = f + 2 := ⟨fuel - 2, by simp [costVPs] at hf; omega⟩
    simp only [ValuePairs.serializeEach] at h
    cases hsk : Value.serialize k with
    | error e => rw [hsk] at h; exact absurd h (by simp)
    | ok kb =>
      rw [hsk] at h
      cases hsv : Value.serialize v with
      | error e => rw [hsv] at h; exact absurd h (by simp)
      | ok vb =>
        rw [hsv] at h
        cases hst : ValuePairs.serializeEach t with
        | error e => rw [hst] at h; exact absurd h (by simp)
        | ok tb =>
          rw [hst] at h
          cases h
          simp only [ValuePairs.reprOkEach, Bool.and_eq_true] at hrep
          simp only [ValuePairs.length]
          rw [show 2 * (1 + ValuePairs.length t) = (2 * ValuePairs.length t + 1) + 1 from by omega]
          show (match deserValue (f + 1) ((kb ++ (vb ++ tb)) ++ suffix) with
            | .ok (v', rest) =>
              match deserMany (f + 1) (2 * ValuePairs.length t + 1) rest with
              | .ok (vs, rest') => RRes.ok (Values.cons v' vs, rest')
              | .err e => .err e
              | .panic => .panic
            | .err e => .err e
            | .panic => .panic) = _
          simp only [List.append_assoc]
          rw [ihk kb (f + 1) (vb ++ (tb ++ suffix)) hsk hrep.1.1 (by simp [costVPs] at hf; omega)]
          dsimp only
          show (match (match deserValue f (vb ++ (tb ++ suffix)) with
            | .ok (v', rest) =>
              match deserMany f (2 * ValuePairs.length t) rest with
              | .ok (vs, rest') => RRes.ok (Values.cons v' vs, rest')
              | .err e => .err e
              | .panic => .panic
            | .err e => .err e
            | .panic => .panic) with
            | .ok (vs, rest') => RRes.ok (Values.cons k vs, rest')
            | .err e => .err e
            | .panic => .panic) = _
          rw [ihv vb f (tb ++ suffix) hsv hrep.1.2 (by simp [costVPs] at hf; omega)]
          dsimp only
          rw [iht tb f suffix hst hrep.2 (by simp [costVPs] at hf; omega)]
          rfl

/-! ### Fuel-cost bounds in terms of serialized length -/

theorem serializeInt_length_pos (n : Int) : 1 ≤ (serializeInt n).length := by
  unfold serializeInt; split <;> simp

/-- The decoding cost of a type is dominated by (three times) its
serialized length. -/
theorem costT_le_serialize (t : Ty) :
    ∀ bs, Ty.serialize t = .ok bs → costT t + 2 ≤ 3 * bs.length := by
  induction t using Ty.rec
    (motive_2 := fun ts => ∀ bs, Tys.serializeEach ts = .ok bs →
      costTs ts ≤ 3 * bs.length + 1) with
  | any => intro bs h; cases h; simp [costT]
  | boolean => intro bs h; cases h; simp [costT]
  | integer => intro bs h; cases h; simp [costT]
  | bits => intro bs h; cases h; simp [costT]
  | string => intro bs h; cases h; simp [costT]
  | address => intro bs h; cases h; simp [costT]
  | contract => intro bs h; cases h; simp [costT]
  | oracle => intro bs h; cases h; simp [costT]
  | oracleQuery => intro bs h; cases h; simp [costT]
  | channel => intro bs h; cases h; simp [costT]
  | contractBytearray => intro bs h; cases h; simp [costT]
  | tvar n => intro bs h; cases h; simp [costT]
  | bytes size =>
    intro bs h; cases h
    have := serializeInt_length_pos (match size with | .unsized => -1 | .sized n => (n : Int))
    simp only [costT, List.length_cons]; omega
  | list t ih =>
    intro bs h
    simp only [Ty.serialize] at h
    cases hs : Ty.serialize t with
    | error e => rw [hs] at h; exact absurd h (by simp [Except.map])
    | ok b =>
      rw [hs] at h; simp only [Except.map] at h; cases h
      have := ih b hs
      simp only [costT, List.length_cons]; omega
  | tuple ts ih =>
    intro bs h
    simp only [Ty.serialize] at h
    by_cases hlen : ts.length < 256
    · rw [if_pos hlen] at h
      cases hs : Tys.serializeEach ts with
      | error e => rw [hs] at h; exact absurd h (by simp [Except.map])
      | ok body =>
        rw [hs] at h; simp only [Except.map] at h; cases h
        have := ih body hs
        simp only [costT, List.length_cons]; omega
    · rw [if_neg hlen] at h; exact absurd h (by simp)
  | variant ts ih =>
    intro bs h
    simp only [Ty.serialize] at h
    by_cases hlen : ts.length < 256
    · rw [if_pos hlen] at h
      cases hs : Tys.serializeEach ts with
      | error e => rw [hs] at h; exact absurd h (by simp [Except.map])
      | ok body =>
        rw [hs] at h; simp only [Except.map] at h; cases h
        have := ih body hs
        simp only [costT, List.length_cons]; omega
    · rw [if_neg hlen] at h; exact absurd h (by simp)
  | map key val ihk ihv =>
    intro bs h
    simp only [Ty.serialize] at h
    cases hsk : Ty.serialize key with
    | error e => rw [hsk] at h; exact absurd h (by simp)
    | ok kb =>
      rw [hsk] at h
      cases hsv : Ty.serialize val with
      | error e => rw [hsv] at h; exact absurd h (by simp)
      | ok vb =>
        rw [hsv] at h; cases h
        have h1 := ihk kb hsk
        have h2 := ihv vb hsv
        simp only [costT, List.length_cons, List.length_append]; omega
  | nil =>
    rename_i bs h
    cases h; simp [costTs]
  | cons hd tl ihh iht =>
    rename_i bs h
    simp only [Tys.serializeEach] at h
    cases hsh : Ty.serialize hd with
    | error e => rw [hsh] at h; exact absurd h (by simp)
    | ok hb =>
      rw [hsh] at h
      cases hst : Tys.serializeEach tl with
      | error e => rw [hst] at h; exact absurd h (by simp)
      | ok tb =>
        rw [hst] at h; cases h
        have h1 := ihh hb hsh
        have h2 := iht tb hst
        simp only [costTs, List.length_append]; omega

/-- The decoding cost of a value is dominated by (three times) its
serialized length. -/
theorem costV_le_serialize (v : Value) :
    ∀ bs, Value.serialize v = .ok bs → costV v + 1 ≤ 3 * bs.length := by
  induction v using Value.rec
    (motive_2 := fun vs => ∀ bs, Values.serializeEach vs = .ok bs →
      costVs vs ≤ 3 * bs.length + 1)
    (motive_3 := fun ps => ∀ bs, ValuePairs.serializeEach ps = .ok bs →
      costVPs ps ≤ 3 * bs.length + 1)
  case boolean b =>
    intro bs h; cases h; cases b <;> simp [costV]
  case integer n =>
    intro bs h; cases h
    have := serializeInt_length_pos n
    simp only [costV]; omega
  case bits n =>
    intro bs h; cases h; simp only [costV, List.length_cons]; omega
  case string s =>
    intro bs h; cases h
    have := List.length_pos.mpr (serializeString_ne_nil s)
    simp only [costV]; omega
  case tuple elems ih =>
    intro bs h
    simp only [Value.serialize] at h
    cases hse : Values.serializeEach elems with
    | error e => rw [hse] at h; exact absurd h (by simp [Except.map])
    | ok body =>
      rw [hse] at h; simp only [Except.map] at h; cases h
      have hb := ih body hse
      rcases Nat.eq_zero_or_pos (Values.length elems) with h0 | h0
      · cases elems with
        | cons hd tl => exact absurd h0 (by simp [Values.length])
        | nil =>
          cases hse
          simp [costV, costVs, tupleFrame, Values.length]
      · have hfl : body.length + 1 ≤ (tupleFrame (Values.length elems) body).length := by
          unfold tupleFrame
          rw [if_neg (by omega)]
          split <;> simp
        simp only [costV]; omega
  case list elems ih =>
    intro bs h
    simp only [Value.serialize] at h
    cases hse : Values.serializeEach elems with
    | error e => rw [hse] at h; exact absurd h (by simp [Except.map])
    | ok body =>
      rw [hse] at h; simp only [Except.map] at h; cases h
      have hb := ih body hse
      have hfl : body.length + 1 ≤ (listFrame (Values.length elems) body).length := by
        unfold listFrame
        split <;> simp
      simp only [costV]; omega
  case bytes s =>
    intro bs h; cases h; simp only [costV, List.length_cons]; omega
  case address s =>
    intro bs h; cases h; simp only [costV, List.length_cons]; omega
  case contract s =>
    intro bs h; cases h; simp only [costV, List.length_cons]; omega
  case oracle s =>
    intro bs h; cases h; simp only [costV, List.length_cons]; omega
  case oracleQuery s =>
    intro bs h; cases h; simp only [costV, List.length_cons]; omega
  case channel s =>
    intro bs h; cases h; simp only [costV, List.length_cons]; omega
  case contractBytearray s =>
    intro bs h; cases h; simp only [costV, List.length_cons]; omega
  case typerep t =>
    intro bs h
    have := costT_le_serialize t bs h
    simp only [costV]; omega
  case map entries ih =>
    intro bs h
    cases entries with
    | nil =>
      cases h
      simp [costV, costVPs]
    | cons k0 v0 t =>
      simp only [Value.serialize] at h
      by_cases hmk : hasMapKey (.cons k0 v0 t) = true
      · rw [if_pos hmk] at h; exact absurd h (by simp)
      rw [if_neg hmk] at h
      by_cases hkd : keysDiscrAll (Value.discr k0) (.cons k0 v0 t) = true
      case neg => rw [if_pos hkd] at h; exact absurd h (by simp)
      rw [if_neg (not_not_intro hkd)] at h
      by_cases hvd : valsDiscrAll (Value.discr v0) (.cons k0 v0 t) = true
      case neg => rw [if_pos hvd] at h; exact absurd h (by simp)
      rw [if_neg (not_not_intro hvd)] at h
      cases hse : ValuePairs.serializeEach (.cons k0 v0 t) with
      | error e => rw [hse] at h; exact absurd h (by simp [Except.map])
      | ok body =>
        rw [hse] at h; simp only [Except.map] at h; cases h
        have hb := ih body hse
        simp only [costV, List.length_cons, List.length_append]; omega
  case storeMap cache id ih =>
    intro bs h
    cases cache with
    | cons k v t => exact absurd h (by simp [Value.serialize])
    | nil =>
      cases h; simp only [costV, List.length_cons]; omega
  case variant arities tag values ih =>
    intro bs h
    simp only [Value.serialize] at h
    by_cases htag : tag < arities.length
    · rw [if_pos htag] at h
      by_cases harity : Values.length values = arities.getD tag 0
      · rw [if_pos harity] at h
        cases hse : Values.serializeEach values with
        | error e => rw [hse] at h; exact absurd h (by simp [Except.map])
        | ok body =>
          rw [hse] at h; simp only [Except.map] at h; cases h
          have hb := ih body hse
          rcases Nat.eq_zero_or_pos (Values.length values) with h0 | h0
          · cases values with
            | cons hd tl => exact absurd h0 (by simp [Values.length])
            | nil =>
              cases hse
              simp only [costV, costVs, tupleFrame, Values.length, if_pos,
                List.length_cons, List.length_append, List.length_nil]
              omega
          · have hfl : body.length + 1 ≤ (tupleFrame (Values.length values) body).length := by
              unfold tupleFrame
              rw [if_neg (by omega)]
              split <;> simp
            simp only [costV, List.length_cons, List.length_append]; omega
      · rw [if_neg harity] at h; exact absurd h (by simp)
    · rw [if_neg htag] at h; exact absurd h (by simp)
  case nil =>
    rename_i bs h
    cases h; simp [costVs]
  case cons =>
    rename_i hd tl ihh iht bs h
    simp only [Values.serializeEach] at h
    cases hsh : Value.serialize hd with
    | error e => rw [hsh] at h; exact absurd h (by simp)
    | ok hb =>
      rw [hsh] at h
      cases hst : Values.serializeEach tl with
      | error e => rw [hst] at h; exact absurd h (by simp)
      | ok tb =>
        rw [hst] at h; cases h
        have h1 := ihh hb hsh
        have h2 := iht tb hst
        simp only [costVs, List.length_append]; omega
  case nil =>
    rename_i bs h
    cases h; simp [costVPs]
  case cons =>
    rename_i k v t ihk ihv iht
    intro bs h
    simp only [ValuePairs.serializeEach] at h
    cases hsk : Value.serialize k with
    | error e => rw [hsk] at h; exact absurd h (by simp)
    | ok kb =>
      rw [hsk] at h
      cases hsv : Value.serialize v with
      | error e => rw [hsv] at h; exact absurd h (by simp)
      | ok vb =>
        rw [hsv] at h
        cases hst : ValuePairs.serializeEach t with
        | error e => rw [hst] at h; exact absurd h (by simp)
        | ok tb =>
          rw [hst] at h; cases h
          have h1 := ihk kb hsk
          have h2 := ihv vb hsv
          have h3 := iht tb hst
          simp only [costVPs, List.length_append]; omega

/-- Round-trip for `Value::try_deserialize` at its public entry point. -/
theorem value_tryDeserialize_serialize (v : Value) (bs : List Nat)
    (h : Value.serialize v = .ok bs) (hrep : Value.reprOk v = true) :
    Value.tryDeserialize bs = .ok (v, []) := by
  have hcost := costV_le_serialize v bs h
  unfold Value.tryDeserialize
  have hd := deserValue_serialize v bs (3 * bs.length + 3) [] h hrep (by omega)
  rw [List.append_nil] at hd
  exact hd

/-- Round-trip for `Value::deserialize` at its public entry point. -/
theorem value_deserialize_serialize (v : Value) (bs : List Nat)
    (h : Value.serialize v = .ok bs) (hrep : Value.reprOk v = true) :
    Value.deserialize bs = .ok v := by
  unfold Value.deserialize
  rw [value_tryDeserialize_serialize v bs h hrep]

/-! ## Claim theorems: RLP and FATE codecs -/

/-- C1 (counterexample): encodings are not canonical.  The RLP bytes
`[0x81, 0x05]` (a needlessly long-form single byte) decode without error
to the byte array `[5]`, whose canonical serialization is the single
byte `[5]`; the FATE byte `[0x80]` (small negative zero) decodes without
error to the integer `0`, which re-serializes to `[0x00]`.  So
`encode (decode b) = b` fails on both codecs. -/
theorem C1_canonicity_counterexample :
    (RlpItem.deserialize [0x81, 0x05] = .ok (.byteArray [5]) ∧
     RlpItem.serialize (.byteArray [5]) ≠ [0x81, 0x05]) ∧
    (Value.deserialize [0x80] = .ok (.integer 0) ∧
     Value.serialize (.integer 0) ≠ .ok [0x80]) := by
  refine ⟨⟨by decide, by decide⟩, ⟨by decide, by decide⟩⟩

/-- C1 (amended): the first half of the claim holds — decoding inverts
encoding.  Every well-formed RLP item (`wf`: each byte and list nesting
representable) deserializes from its serialization, and every FATE value
whose serialization succeeds and whose `usize` fields are representable
(`reprOk`) deserializes from its serialization. -/
theorem C1_decode_encode (it : RlpItem) (v : Value) (bs : List Nat)
    (hwf : it.wf = true) (hs : Value.serialize v = .ok bs)
    (hrep : Value.reprOk v = true) :
    RlpItem.deserialize (RlpItem.serialize it) = .ok it ∧
    Value.deserialize bs = .ok v :=
  ⟨rlp_deserialize_serialize it hwf, value_deserialize_serialize v bs hs hrep⟩

theorem C1_decode_encode_witness :
    (RlpItem.wf (.list (.cons (.byteArray [1, 2, 3]) .nil)) = true ∧
     Value.serialize (.tuple (.cons (.boolean true) (.cons (.integer 70) .nil))) =
       .ok [43, 255, 111, 6] ∧
     Value.reprOk (.tuple (.cons (.boolean true) (.cons (.integer 70) .nil))) = true) ∧
    RlpItem.deserialize (RlpItem.serialize (.list (.cons (.byteArray [1, 2, 3]) .nil))) =
      .ok (.list (.cons (.byteArray [1, 2, 3]) .nil)) ∧
    Value.deserialize [43, 255, 111, 6] =
      .ok (.tuple (.cons (.boolean true) (.cons (.integer 70) .nil))) :=
  ⟨⟨by decide, by decide, by decide⟩,
    (C1_decode_encode (.list (.cons (.byteArray [1, 2, 3]) .nil))
      (.tuple (.cons (.boolean true) (.cons (.integer 70) .nil))) [43, 255, 111, 6]
      (by decide) (by decide) (by decide)).1,
    (C1_decode_encode (.list (.cons (.byteArray [1, 2, 3]) .nil))
      (.tuple (.cons (.boolean true) (.cons (.integer 70) .nil))) [43, 255, 111, 6]
      (by decide) (by decide) (by decide)).2⟩

/-- C2: the serializer enforces both variant invariants
(`InvalidVariantTag` when `tag ≥ arities.len()`, `ArityValuesMismatch`
when the value count differs from `arities[tag]`), but the deserializer
does not: its guard is `tag > arities.len()` (off by one), so the
VARIANT input `[0xAF, 0x80, 0x00, 0x3F]` — empty arity vector, tag 0 —
passes the guard and panics at the index expression `arities[tag]`
instead of returning `TooLargeTagInVariant`. -/
theorem C2_variant_guards :
    (∀ arities tag values, arities.length ≤ tag →
      Value.serialize (.variant arities tag values) = .error .InvalidVariantTag) ∧
    (∀ arities tag values, tag < arities.length →
      Values.length values ≠ arities.getD tag 0 →
      Value.serialize (.variant arities tag values) = .error .ArityValuesMismatch) ∧
    Value.tryDeserialize [0xAF, 0x81, 0x05, 0x05, 0x3F] = .err .TooLargeTagInVariant ∧
    Value.tryDeserialize [0xAF, 0x80, 0x00, 0x3F] = .panic := by
  refine ⟨?_, ?_, by decide, by decide⟩
  · intro arities tag values h
    simp only [Value.serialize]
    rw [if_neg (by omega)]
  · intro arities tag values h1 h2
    simp only [Value.serialize]
    rw [if_pos h1, if_neg h2]

theorem C2_variant_guards_witness :
    ((0 : Nat) ≤ (0 : Nat) ∧ (0 : Nat) < 1 ∧ Values.length .nil ≠ [2].getD 0 0) ∧
    Value.serialize (.variant [] 0 .nil) = .error .InvalidVariantTag ∧
    Value.serialize (.variant [2] 0 .nil) = .error .ArityValuesMismatch ∧
    Value.tryDeserialize [0xAF, 0x81, 0x05, 0x05, 0x3F] = .err .TooLargeTagInVariant ∧
    Value.tryDeserialize [0xAF, 0x80, 0x00, 0x3F] = .panic :=
  ⟨⟨by decide, by decide, by decide⟩,
    C2_variant_guards.1 [] 0 .nil (by decide),
    C2_variant_guards.2.1 [2] 0 .nil (by decide) (by decide),
    C2_variant_guards.2.2.1,
    C2_variant_guards.2.2.2⟩

/-- C6: decoding is not panic-free.  `RlpItem::try_deserialize` indexes
`bytes[0]` on the empty input, and the short-list and long-byte-array
arms slice past the end on truncated inputs such as `[0xC5]` and
`[0xF8]`; `Value::try_deserialize` underflows/slices on the truncated
tuple input `[0x0B]`.  Each is a panic, not a sum-typed error. -/
theorem C6_decoders_panic :
    RlpItem.tryDeserialize [] = .panic ∧
    RlpItem.tryDeserialize [0xC5] = .panic ∧
    RlpItem.tryDeserialize [0xF8] = .panic ∧
    Value.tryDeserialize [0x0B] = .panic := by
  refine ⟨by decide, by decide, by decide, by decide⟩

/-- C7: `SizeOverflow{position, expected, actual}` is produced by the
short-byte-array arm (declared payload length 5 against 3 available
bytes in `[0x85, 1, 2]`) and by the size-field read of the
long-byte-array arm (`[0xB9, 9]`), but not by the two list arms: a
short list whose declared payload exceeds the remaining input
(`[0xC5]`) and a long list whose size field is missing (`[0xF8]`)
panic on an out-of-range slice or index instead of returning
`SizeOverflow`. -/
theorem C7_size_overflow :
    RlpItem.tryDeserialize [0x85, 1, 2] = .err (.SizeOverflow 0 5 3) ∧
    RlpItem.tryDeserialize [0xB9, 9] = .err (.SizeOverflow 0 2 2) ∧
    RlpItem.tryDeserialize [0xC5] = .panic ∧
    RlpItem.tryDeserialize [0xF8] = .panic := by
  refine ⟨by decide, by decide, by decide, by decide⟩

/-- C9: the comparison used to order map keys does not order leaf values
by their natural within-variant order: `partial_cmp` returns `None` for
two `Address` values (only `Boolean`, `Integer` and `String` have a
fallback), and `Ord::cmp`'s final arm then returns `Equal`, so the
distinct addresses `[0]` and `[1]` compare as equal. -/
theorem C9_address_cmp_eq :
    Value.cmp (.address [0]) (.address [1]) = some .eq ∧
    Value.address [0] ≠ Value.address [1] ∧
    Value.ordinal (.address [0]) = Value.ordinal (.address [1]) := by
  refine ⟨by decide, by decide, by decide⟩

/-- C8 (counterexample): the big-integer payload is not the minimal
big-endian byte array of `m − 64`.  For `n = 64` the magnitude payload
is `m − 64 = 0`, which `num_bigint::BigUint::to_bytes_be` renders as
the single byte `[0]` — not the empty minimal encoding — so the
serialization is `[0x6F, 0x00]`, where the spec's layout would give
`[0x6F] ++ RLP([]) = [0x6F, 0x80]`. -/
theorem C8_counterexample :
    serializeInt 64 = [0x6F, 0x00] ∧
    serializeInt 64 ≠ 0x6F :: RlpItem.serialize (.byteArray (usizeToMinBeBytes 0)) := by
  refine ⟨by decide, by decide⟩

/-- C8 (amended): the small form is the byte `(s<<7) ||| (m<<1)` with
low bit 0 and recoverable magnitude `(b &&& 0b0111_1110) >>> 1`; the
big form is the discriminator `0x6F`/`0xEF` followed by the RLP framing
of `m − 64` rendered by `BigUint::to_bytes_be` — the minimal big-endian
bytes except that the magnitude payload 0 becomes `[0]`, not `[]`; and
decoding mirrors the encoding for every representable integer. -/
theorem C8_int_encoding (n : Int) :
    (n.natAbs < 64 → serializeInt n =
        [(if n < 0 then 1 else 0) <<< 7 ||| n.natAbs <<< 1] ∧
      ((if n < 0 then 1 else 0) <<< 7 ||| n.natAbs <<< 1) &&& 1 = 0 ∧
      (((if n < 0 then 1 else 0) <<< 7 ||| n.natAbs <<< 1) &&& 126) >>> 1 = n.natAbs) ∧
    (64 ≤ n.natAbs → serializeInt n = (if n < 0 then 0xEF else 0x6F) ::
      RlpItem.serialize (.byteArray
        (if n.natAbs = 64 then [0] else usizeToMinBeBytes (n.natAbs - 64)))) ∧
    (Value.reprOk (.integer n) = true →
      Value.deserialize (serializeInt n) = .ok (.integer n)) := by
  have hsmall : ∀ s < 2, ∀ m < 64,
      ((s <<< 7 ||| m <<< 1) = s * 128 + m * 2 ∧
       (s <<< 7 ||| m <<< 1) &&& 1 = 0 ∧
       ((s <<< 7 ||| m <<< 1) &&& 126) >>> 1 = m) := by decide
  refine ⟨?_, ?_, ?_⟩
  · intro h
    obtain ⟨h1, h2, h3⟩ := hsmall (if n < 0 then 1 else 0)
      (by split <;> omega) n.natAbs h
    refine ⟨?_, h2, h3⟩
    unfold serializeInt
    rw [if_pos h, h1]
    split <;> simp
  · intro h
    have hbig : bigUintToBytesBE (n.natAbs - 64) =
        if n.natAbs = 64 then [0] else usizeToMinBeBytes (n.natAbs - 64) := by
      rw [bigUintToBytesBE]
      by_cases h64 : n.natAbs = 64
      · rw [if_pos (by omega), if_pos h64]
      · rw [if_neg (by omega), if_neg h64]
    unfold serializeInt
    rw [if_neg (by omega), hbig]
  · intro hrep
    exact value_deserialize_serialize (.integer n) (serializeInt n) rfl hrep

theorem C8_int_encoding_witness :
    ((5 : Int).natAbs < 64 ∧ 64 ≤ (-70 : Int).natAbs ∧
      Value.reprOk (.integer (-70)) = true) ∧
    serializeInt (-5) = [(if (-5 : Int) < 0 then 1 else 0) <<< 7 ||| (5 : Nat) <<< 1] ∧
    serializeInt (-70) = 0xEF :: RlpItem.serialize (.byteArray (usizeToMinBeBytes 6)) ∧
    Value.deserialize (serializeInt (-70)) = .ok (.integer (-70)) :=
  ⟨⟨by decide, by decide, by decide⟩,
    ((C8_int_encoding (-5)).1 (by decide)).1,
    (C8_int_encoding (-70)).2.1 (by decide),
    (C8_int_encoding (-70)).2.2 (by decide)⟩

end Fate

/-! ## Contract code container (src/crates/aeserialization/src/contract_code.rs) -/

namespace ContractCode

open Fate (AeDecodingErr)

/-- Conversion of the mutual list-of-items type to a `List`. -/
def itemsToList : RlpItems → List RlpItem
  | .nil => []
  | .cons h t => h :: itemsToList t

/-- `RlpItem::list` accessor of the aeser crate's rlp module.  Modelled
from the spec: the module itself is not under src/; the crate's error
enum (src/crates/aeserialization/src/error.rs) fixes `InvalidList` as
"RLP item is not a recursive list". -/
def listE : RlpItem → Except AeDecodingErr (List RlpItem)
  | .list items => .ok (itemsToList items)
  | .byteArray _ => .error .InvalidList

/-- `RlpItem::byte_array` accessor of the aeser crate's rlp module.
Modelled from the spec: `InvalidBinary` is "RLP item is not a byte
array". -/
def byteArrayE : RlpItem → Except AeDecodingErr (List Nat)
  | .byteArray bs => .ok bs
  | .list _ => .error .InvalidBinary

/-- `u8::from_rlp_item` of the aeser crate's rlp module.  Modelled from
the spec: a `u8` is RLP-encoded as the byte array holding its single
byte; `InvalidInt` is "Failed decoding an RLP item as an integer". -/
def u8FromRlpItem : RlpItem → Except AeDecodingErr Nat
  | .byteArray [b] => if b < 256 then .ok b else .error .InvalidInt
  | _ => .error .InvalidInt

/-- `bool::from_rlp_item` of the aeser crate's rlp module.  Modelled
from the spec: a bool is RLP-encoded as the byte array `[0]`/`[1]`;
`InvalidBool` is "Failed decoding an RLP item as a bool". -/
def boolFromRlpItem : RlpItem → Except AeDecodingErr Bool
  | .byteArray [0] => .ok false
  | .byteArray [1] => .ok true
  | _ => .error .InvalidBool

/-- `TypeInfo` from src/crates/aeserialization/src/contract_code.rs. -/
structure TypeInfo where
  type_hash : List Nat
  name : List Nat
  payable : Bool
  arg_type : List Nat
  out_type : List Nat
deriving DecidableEq

/-- `TypeInfo::from_rlp_item`. -/
def TypeInfo.fromRlpItem (item : RlpItem) : Except AeDecodingErr TypeInfo :=
  match listE item with
  | .error _ => .error .InvalidRlp
  | .ok items =>
    if items.length ≠ 5 then .error .InvalidRlp
    else
      match byteArrayE (items.getD 0 (.byteArray [])) with
      | .error e => .error e
      | .ok type_hash =>
        match byteArrayE (items.getD 1 (.byteArray [])) with
        | .error e => .error e
        | .ok name =>
          match boolFromRlpItem (items.getD 2 (.byteArray [])) with
          | .error e => .error e
          | .ok payable =>
            match byteArrayE (items.getD 3 (.byteArray [])) with
            | .error e => .error e
            | .ok arg_type =>
              match byteArrayE (items.getD 4 (.byteArray [])) with
              | .error e => .error e
              | .ok out_type =>
                .ok ⟨type_hash, name, payable, arg_type, out_type⟩

/-- `Vec::<TypeInfo>::from_rlp_item` of the aeser crate's rlp module.
Modelled from the spec: a vector is RLP-encoded as the list of its
elements' encodings, so decoding reads a list and decodes each
element. -/
def typeInfoVecFromRlpItem (item : RlpItem) : Except AeDecodingErr (List TypeInfo) :=
  match listE item with
  | .error _ => .error .InvalidList
  | .ok items => go items
where
  go : List RlpItem → Except AeDecodingErr (List TypeInfo)
  | [] => .ok []
  | i :: rest =>
    match TypeInfo.fromRlpItem i with
    | .error e => .error e
    | .ok ti =>
      match go rest with
      | .error e => .error e
      | .ok tis => .ok (ti :: tis)

/-- `Code` from src/crates/aeserialization/src/contract_code.rs. -/
structure Code where
  byte_code : List Nat
  payable : Bool
  source_hash : List Nat
  compiler_version : List Nat
  type_info : List TypeInfo
deriving DecidableEq

/-- `Code::from_rlp_item` (`CODE_TAG = 70`): a 7-element list whose
first field holds the tag 70; the version field `items[1]` is read for
no check at all, and the type-info field is decoded by the plain vector
instance with no emptiness check. -/
def Code.fromRlpItem (item : RlpItem) : Except AeDecodingErr Code :=
  match listE item with
  | .error _ => .error .InvalidRlp
  | .ok items =>
    if items.length ≠ 7 then .error .InvalidRlp
    else
      match u8FromRlpItem (items.getD 0 (.byteArray [])) with
      | .error e => .error e
      | .ok tag =>
        if tag ≠ 70 then .error .InvalidRlp
        else
          match byteArrayE (items.getD 2 (.byteArray [])) with
          | .error e => .error e
          | .ok source_hash =>
            match typeInfoVecFromRlpItem (items.getD 3 (.byteArray [])) with
            | .error e => .error e
            | .ok type_info =>
              match byteArrayE (items.getD 4 (.byteArray [])) with
              | .error e => .error e
              | .ok byte_code =>
                match byteArrayE (items.getD 5 (.byteArray [])) with
                | .error e => .error e
                | .ok compiler_version =>
                  match boolFromRlpItem (items.getD 6 (.byteArray [])) with
                  | .error e => .error e
                  | .ok payable =>
                    .ok ⟨byte_code, payable, source_hash, compiler_version, type_info⟩

/-- `Code::deserialize` = `FromRlpItem::deserialize_rlp`.  Modelled from
the spec: the default `deserialize_rlp` of the aeser crate's rlp module
decodes the full input as one RLP item and converts it. -/
def Code.deserialize (bytes : List Nat) : RRes AeDecodingErr Code :=
  match RlpItem.deserialize bytes with
  | .ok item =>
    (match Code.fromRlpItem item with
     | .ok code => .ok code
     | .error e => .err e)
  | .err _ => .err .InvalidRlp
  | .panic => .panic

theorem itemsToList_length : ∀ its : RlpItems,
    (itemsToList its).length = RlpItems.length its
  | .nil => rfl
  | .cons h t => by simp [itemsToList, RlpItems.length, itemsToList_length t]; omega

/-- C5 (counterexample): a version-3 contract record whose type-info
field is a non-empty list is not rejected with `InvalidCode` — it
decodes successfully, both from the RLP item and from the serialized
bytes (the crate's own `sophia_contract_w_type_info_version3_serialize`
test pins the same behaviour), and `InvalidCode` is never produced. -/
theorem C5_type_info_counterexample :
    Code.fromRlpItem (.list (.cons (.byteArray [70]) (.cons (.byteArray [3])
        (.cons (.byteArray [1, 2]) (.cons (.list (.cons (.list (.cons (.byteArray [21, 37])
          (.cons (.byteArray []) (.cons (.byteArray [1]) (.cons (.byteArray [42, 0])
          (.cons (.byteArray [255, 7]) .nil)))))) .nil)) (.cons (.byteArray [7, 7])
        (.cons (.byteArray [51]) (.cons (.byteArray [1]) .nil)))))))) =
      .ok ⟨[7, 7], true, [1, 2], [51], [⟨[21, 37], [], true, [42, 0], [255, 7]⟩]⟩ ∧
    Code.deserialize (RlpItem.serialize (.list (.cons (.byteArray [70]) (.cons (.byteArray [3])
        (.cons (.byteArray [1, 2]) (.cons (.list (.cons (.list (.cons (.byteArray [21, 37])
          (.cons (.byteArray []) (.cons (.byteArray [1]) (.cons (.byteArray [42, 0])
          (.cons (.byteArray [255, 7]) .nil)))))) .nil)) (.cons (.byteArray [7, 7])
        (.cons (.byteArray [51]) (.cons (.byteArray [1]) .nil))))))))) =
      .ok ⟨[7, 7], true, [1, 2], [51], [⟨[21, 37], [], true, [42, 0], [255, 7]⟩]⟩ ∧
    ([⟨[21, 37], [], true, [42, 0], [255, 7]⟩] : List TypeInfo) ≠ [] := by
  refine ⟨by decide, by decide, by decide⟩

/-- C5 (amended): the first two checks of the claim hold — a top-level
item that is not a list, a list without exactly 7 elements, and a
7-element list whose first field is a byte with a value other than the
tag 70 are all rejected with `InvalidRlp`. -/
theorem C5_code_checks :
    (∀ bs, Code.fromRlpItem (.byteArray bs) = .error .InvalidRlp) ∧
    (∀ its, RlpItems.length its ≠ 7 → Code.fromRlpItem (.list its) = .error .InvalidRlp) ∧
    (∀ i1 i2 i3 i4 i5 i6 tag, tag < 256 → tag ≠ 70 →
      Code.fromRlpItem (.list (.cons (.byteArray [tag]) (.cons i1 (.cons i2 (.cons i3
        (.cons i4 (.cons i5 (.cons i6 .nil)))))))) = .error .InvalidRlp) := by
  refine ⟨fun bs => rfl, ?_, ?_⟩
  · intro its h
    simp only [Code.fromRlpItem, listE]
    rw [if_pos (by rw [itemsToList_length]; exact h)]
  · intro i1 i2 i3 i4 i5 i6 tag htag h70
    simp only [Code.fromRlpItem, listE, itemsToList]
    rw [if_neg (by simp), show u8FromRlpItem (List.getD _ 0 (.byteArray [])) =
      .ok tag from by simp [u8FromRlpItem, List.getD, if_pos htag]]
    dsimp only
    rw [if_pos h70]

theorem C5_code_checks_witness :
    (RlpItems.length (.cons (.byteArray []) .nil) ≠ 7 ∧ (71 : Nat) < 256 ∧ (71 : Nat) ≠ 70) ∧
    Code.fromRlpItem (.byteArray [1]) = .error .InvalidRlp ∧
    Code.fromRlpItem (.list (.cons (.byteArray []) .nil)) = .error .InvalidRlp ∧
    Code.fromRlpItem (.list (.cons (.byteArray [71]) (.cons (.byteArray []) (.cons (.byteArray [])
      (.cons (.byteArray []) (.cons (.byteArray []) (.cons (.byteArray [])
      (.cons (.byteArray []) .nil)))))))) = .error .InvalidRlp :=
  ⟨⟨by decide, by decide, by decide⟩,
    C5_code_checks.1 [1],
    C5_code_checks.2.1 (.cons (.byteArray []) .nil) (by decide),
    C5_code_checks.2.2 (.byteArray []) (.byteArray []) (.byteArray []) (.byteArray [])
      (.byteArray []) (.byteArray []) 71 (by decide) (by decide)⟩

end ContractCode

/-! ## API string encoder (src/src/api_encoder.rs) -/

namespace Api

/-- `error::DecodingErr` from src/src/error.rs — the encoder crate's
error enum.  Note the absence of `InvalidCheck` and `InvalidCode`. -/
inductive DecodingErr where
  | InvalidIdSize
  | InvalidIdTag
  | InvalidIdPub
  | InvalidBool
  | InvalidInt
  | InvalidBinary
  | InvalidList
  | InvalidRlp
  | InvalidPrefix
  | MissingPrefix
  | IncorrectSize
  | InvalidEncoding
deriving DecidableEq

/-- Right rotation of a 32-bit word. -/
def rotr32 (n x : Nat) : Nat := ((x >>> n) ||| (x <<< (32 - n))) % 2 ^ 32

/-- Round constants of SHA-256.  Modelled from the spec: §4.6 fixes the
check as a SHA-256 double hash; the `sha256` crate the encoder calls
implements FIPS 180-4. -/
def shaK : List Nat :=
  [1116352408, 1899447441, 3049323471, 3921009573, 961987163, 1508970993,
   2453635748, 2870763221, 3624381080, 310598401, 607225278, 1426881987,
   1925078388, 2162078206, 2614888103, 3248222580, 3835390401, 4022224774,
   264347078, 604807628, 770255983, 1249150122, 1555081692, 1996064986,
   2554220882, 2821834349, 2952996808, 3210313671, 3336571891, 3584528711,
   113926993, 338241895, 666307205, 773529912, 1294757372, 1396182291,
   1695183700, 1986661051, 2177026350, 2456956037, 2730485921, 2820302411,
   3259730800, 3345764771, 3516065817, 3600352804, 4094571909, 275423344,
   430227734, 506948616, 659060556, 883997877, 958139571, 1322822218,
   1537002063, 1747873779, 1955562222, 2024104815, 2227730452, 2361852424,
   2428436474, 2756734187, 3204031479, 3329325298]

/-- Initial hash state of SHA-256 (FIPS 180-4). -/
def shaH0 : List Nat :=
  [1779033703, 3144134277, 1013904242, 2773480762,
   1359893119, 2600822924, 528734635, 1541459225]

/-- Big-endian 4-byte grouping of a byte string into 32-bit words. -/
def bytesToWordsBE : List Nat → List Nat
  | b0 :: b1 :: b2 :: b3 :: rest =>
    (((b0 * 256 + b1) * 256 + b2) * 256 + b3) :: bytesToWordsBE rest
  | _ => []

/-- Big-endian bytes of a 32-bit word. -/
def wordToBytesBE (w : Nat) : List Nat :=
  [w / 2 ^ 24 % 256, w / 2 ^ 16 % 256, w / 2 ^ 8 % 256, w % 256]

/-- FIPS 180-4 message padding: `0x80`, zeros to 56 mod 64, then the
bit length as 8 big-endian bytes. -/
def shaPad (msg : List Nat) : List Nat :=
  let L := msg.length
  let n := L * 8
  msg ++ 0x80 :: List.replicate ((119 - L % 64) % 64) 0 ++
    [n / 2 ^ 56 % 256, n / 2 ^ 48 % 256, n / 2 ^ 40 % 256, n / 2 ^ 32 % 256,
     n / 2 ^ 24 % 256, n / 2 ^ 16 % 256, n / 2 ^ 8 % 256, n % 256]

/-- Message-schedule extension (48 steps). -/
def shaExtend : Nat → List Nat → List Nat
  | 0, w => w
  | f + 1, w =>
    let i := w.length
    let x15 := w.getD (i - 15) 0
    let x2 := w.getD (i - 2) 0
    let s0 := rotr32 7 x15 ^^^ rotr32 18 x15 ^^^ (x15 >>> 3)
    let s1 := rotr32 17 x2 ^^^ rotr32 19 x2 ^^^ (x2 >>> 10)
    shaExtend f (w ++ [(w.getD (i - 16) 0 + s0 + w.getD (i - 7) 0 + s1) % 2 ^ 32])

/-- The 64 compression rounds. -/
def shaRounds : List Nat → List Nat → List Nat → List Nat
  | k :: ks, w :: ws, [a, b, c, d, e, f, g, h] =>
    let s1 := rotr32 6 e ^^^ rotr32 11 e ^^^ rotr32 25 e
    let ch := (e &&& f) ^^^ ((e ^^^ 0xffffffff) &&& g)
    let t1 := (h + s1 + ch + k + w) % 2 ^ 32
    let s0 := rotr32 2 a ^^^ rotr32 13 a ^^^ rotr32 22 a
    let mj := (a &&& b) ^^^ (a &&& c) ^^^ (b &&& c)
    let t2 := (s0 + mj) % 2 ^ 32
    shaRounds ks ws [(t1 + t2) % 2 ^ 32, a, b, c, (d + t1) % 2 ^ 32, e, f, g]
  | _, _, st => st

/-- One SHA-256 block compression. -/
def shaCompress (h : List Nat) (block : List Nat) : List Nat :=
  let w := shaExtend 48 (bytesToWordsBE block)
  let v := shaRounds shaK w h
  List.zipWith (fun x y => (x + y) % 2 ^ 32) h v

/-- Folding the compression over the (fuel-counted) 64-byte blocks. -/
def shaBlocks : Nat → List Nat → List Nat → List Nat
  | 0, _, h => h
  | f + 1, bs, h =>
    match bs with
    | [] => h
    | _ => shaBlocks f (bs.drop 64) (shaCompress h (bs.take 64))

/-- SHA-256 of a byte string (32 bytes out). -/
def sha256 (msg : List Nat) : List Nat :=
  let padded := shaPad msg
  (shaBlocks (padded.length / 64 + 1) padded shaH0).flatMap wordToBytesBE

/-- ASCII code of the lowercase hex digit of `n < 16`. -/
def hexDigit (n : Nat) : Nat := if n < 10 then 48 + n else 87 + n

/-- Lowercase-hex rendering of a byte string, as ASCII codes — the
`String` the `sha256` crate's `digest` returns. -/
def hexAscii (bs : List Nat) : List Nat :=
  bs.flatMap (fun b => [hexDigit (b / 16 % 16), hexDigit (b % 16)])

/-- Base58 (bitcoin) alphabet.  Modelled from the spec: §4.6 fixes the
payload encodings as base58 or base64 (the `bs58` and `base64` crates). -/
def b58Alphabet : List Char :=
  "123456789ABCDEFGHJKLMNPQRSTUVWXYZabcdefghijkmnopqrstuvwxyz".toList

/-- Digit value of a base58 character. -/
def b58Val (c : Char) : Option Nat := b58Alphabet.indexOf? c

/-- Base58 digits (big-endian, fuel-counted) of a number. -/
def natToB58 : Nat → Nat → List Nat
  | 0, _ => []
  | f + 1, n => if n = 0 then [] else natToB58 f (n / 58) ++ [n % 58]

/-- Leading zero bytes of a payload (encoded as leading `1`s). -/
def countZeroBytes : List Nat → Nat
  | 0 :: rest => countZeroBytes rest + 1
  | _ => 0

/-- `bs58::encode`. -/
def b58Encode (data : List Nat) : List Char :=
  List.replicate (countZeroBytes data) '1' ++
    (natToB58 (2 * data.length + 2) (beVal data)).map (fun d => b58Alphabet.getD d '1')

/-- Leading `1` characters (decoded as zero bytes). -/
def countOneChars : List Char → Nat
  | '1' :: rest => countOneChars rest + 1
  | _ => 0

/-- Big-endian base58 value of a character string, `none` on a
character outside the alphabet. -/
def b58ValAcc : Nat → List Char → Option Nat
  | acc, [] => some acc
  | acc, c :: rest =>
    match b58Val c with
    | some d => b58ValAcc (acc * 58 + d) rest
    | none => none

/-- `bs58::decode`. -/
def b58Decode (data : List Char) : Option (List Nat) :=
  match b58ValAcc 0 data with
  | none => none
  | some v => some (List.replicate (countOneChars data) 0 ++ usizeToMinBeBytes v)

/-- Character of a base64 digit (RFC 4648 standard alphabet). -/
def b64Char (n : Nat) : Char :=
  if n < 26 then Char.ofNat (65 + n)
  else if n < 52 then Char.ofNat (97 + n - 26)
  else if n < 62 then Char.ofNat (48 + n - 52)
  else if n = 62 then '+' else '/'

/-- Digit value of a base64 character. -/
def b64Val (c : Char) : Option Nat :=
  if 'A' ≤ c ∧ c ≤ 'Z' then some (c.toNat - 65)
  else if 'a' ≤ c ∧ c ≤ 'z' then some (c.toNat - 97 + 26)
  else if '0' ≤ c ∧ c ≤ '9' then some (c.toNat - 48 + 52)
  else if c = '+' then some 62
  else if c = '/' then some 63
  else none

/-- `base64::engine::general_purpose::STANDARD.encode` (padded). -/
def b64Encode : List Nat → List Char
  | b1 :: b2 :: b3 :: rest =>
    b64Char (b1 / 4) :: b64Char (b1 % 4 * 16 + b2 / 16) ::
      b64Char (b2 % 16 * 4 + b3 / 64) :: b64Char (b3 % 64) :: b64Encode rest
  | [b1, b2] =>
    [b64Char (b1 / 4), b64Char (b1 % 4 * 16 + b2 / 16), b64Char (b2 % 16 * 4), '=']
  | [b1] => [b64Char (b1 / 4), b64Char (b1 % 4 * 16), '=', '=']
  | [] => []

/-- `base64::engine::general_purpose::STANDARD.decode`: canonical
padding required, non-zero trailing bits rejected. -/
def b64Decode : List Char → Option (List Nat)
  | [] => some []
  | c1 :: c2 :: c3 :: c4 :: rest =>
    match b64Val c1, b64Val c2 with
    | some v1, some v2 =>
      if c3 = '=' then
        if c4 = '=' ∧ rest = [] ∧ v2 % 16 = 0 then some [v1 * 4 + v2 / 16] else none
      else
        match b64Val c3 with
        | some v3 =>
          if c4 = '=' then
            if rest = [] ∧ v3 % 4 = 0 then
              some [v1 * 4 + v2 / 16, v2 % 16 * 16 + v3 / 4]
            else none
          else
            match b64Val c4 with
            | some v4 =>
              match b64Decode rest with
              | some bs => some ((v1 * 4 + v2 / 16) :: (v2 % 16 * 16 + v3 / 4) ::
                  ((v3 % 4 * 64 + v4) :: bs))
              | none => none
            | none => none
        | none => none
    | _, _ => none
  | _ => none

/-- `id::Tag` from src/src/id.rs. -/
inductive Tag where
  | Account
  | Name
  | Commitment
  | Oracle
  | Contract
  | Channel
deriving DecidableEq

/-- `id::Id` from src/src/id.rs (`EncodedId` unwrapped to its byte
payload). -/
structure Id where
  tag : Tag
  val : List Nat
deriving DecidableEq

/-- `KnownType` from src/src/api_encoder.rs. -/
inductive KnownType where
  | KeyBlockHash
  | MicroBlockHash
  | BlockPofHash
  | BlockTxHash
  | BlockStateHash
  | Channel
  | ContractBytearray
  | ContractPubkey
  | ContractStoreKey
  | ContractStoreValue
  | Transaction
  | TxHash
  | OraclePubkey
  | OracleQuery
  | OracleQueryId
  | OracleResponse
  | AccountPubkey
  | Signature
  | Name
  | Commitment
  | PeerPubkey
  | State
  | Poi
  | StateTrees
  | CallStateTree
  | Bytearray
deriving DecidableEq

namespace KnownType

/-- `KnownType::byte_size`. -/
def byte_size : KnownType → Option Nat
  | .KeyBlockHash => some 32
  | .MicroBlockHash => some 32
  | .BlockPofHash => some 32
  | .BlockTxHash => some 32
  | .BlockStateHash => some 32
  | .Channel => some 32
  | .ContractPubkey => some 32
  | .ContractBytearray => none
  | .ContractStoreKey => none
  | .ContractStoreValue => none
  | .Transaction => none
  | .TxHash => some 32
  | .OraclePubkey => some 32
  | .OracleQuery => none
  | .OracleQueryId => some 32
  | .OracleResponse => none
  | .AccountPubkey => some 32
  | .Signature => some 64
  | .Name => none
  | .Commitment => some 32
  | .PeerPubkey => some 32
  | .State => some 32
  | .Poi => none
  | .StateTrees => none
  | .CallStateTree => none
  | .Bytearray => none

/-- `KnownType::check_size`. -/
def check_size (t : KnownType) (s : Nat) : Bool :=
  match byte_size t with
  | some n => n == s
  | none => true

/-- `KnownType::prefix`. -/
def pfx : KnownType → List Char
  | .KeyBlockHash => ['k', 'h']
  | .MicroBlockHash => ['m', 'h']
  | .BlockPofHash => ['b', 'f']
  | .BlockTxHash => ['b', 'x']
  | .BlockStateHash => ['b', 's']
  | .Channel => ['c', 'h']
  | .ContractBytearray => ['c', 'b']
  | .ContractPubkey => ['c', 'k']
  | .ContractStoreKey => ['c', 'v']
  | .ContractStoreValue => ['c', 't']
  | .Transaction => ['t', 'x']
  | .TxHash => ['t', 'h']
  | .OraclePubkey => ['o', 'k']
  | .OracleQuery => ['o', 'v']
  | .OracleQueryId => ['o', 'q']
  | .OracleResponse => ['o', 'r']
  | .AccountPubkey => ['a', 'k']
  | .Signature => ['s', 'g']
  | .Name => ['c', 'm']
  | .Commitment => ['p', 'p']
  | .PeerPubkey => ['n', 'm']
  | .State => ['s', 't']
  | .Poi => ['p', 'i']
  | .StateTrees => ['s', 's']
  | .CallStateTree => ['c', 's']
  | .Bytearray => ['b', 'a']

/-- `KnownType::from_prefix`. -/
def fromPfx (p : List Char) : Option KnownType :=
  if p = ['k', 'h'] then some .KeyBlockHash
  else if p = ['m', 'h'] then some .MicroBlockHash
  else if p = ['b', 'f'] then some .BlockPofHash
  else if p = ['b', 'x'] then some .BlockTxHash
  else if p = ['b', 's'] then some .BlockStateHash
  else if p = ['c', 'h'] then some .Channel
  else if p = ['c', 'b'] then some .ContractBytearray
  else if p = ['c', 'k'] then some .ContractPubkey
  else if p = ['c', 'v'] then some .ContractStoreKey
  else if p = ['c', 't'] then some .ContractStoreValue
  else if p = ['t', 'x'] then some .Transaction
  else if p = ['t', 'h'] then some .TxHash
  else if p = ['o', 'k'] then some .OraclePubkey
  else if p = ['o', 'v'] then some .OracleQuery
  else if p = ['o', 'q'] then some .OracleQueryId
  else if p = ['o', 'r'] then some .OracleResponse
  else if p = ['a', 'k'] then some .AccountPubkey
  else if p = ['s', 'g'] then some .Signature
  else if p = ['c', 'm'] then some .Name
  else if p = ['p', 'p'] then some .Commitment
  else if p = ['n', 'm'] then some .PeerPubkey
  else if p = ['s', 't'] then some .State
  else if p = ['p', 'i'] then some .Poi
  else if p = ['s', 's'] then some .StateTrees
  else if p = ['c', 's'] then some .CallStateTree
  else if p = ['b', 'a'] then some .Bytearray
  else none

/-- `KnownType::to_id_tag`. -/
def toIdTag : KnownType → Option Tag
  | .AccountPubkey => some .Account
  | .Channel => some .Channel
  | .Commitment => some .Commitment
  | .ContractPubkey => some .Contract
  | .Name => some .Name
  | .OraclePubkey => some .Oracle
  | _ => none

/-- `KnownType::from_id_tag`. -/
def fromIdTag : Tag → KnownType
  | .Account => .AccountPubkey
  | .Channel => .Channel
  | .Commitment => .Commitment
  | .Contract => .ContractPubkey
  | .Name => .Name
  | .Oracle => .OraclePubkey

end KnownType

/-- `Encoding` from src/src/api_encoder.rs. -/
inductive Encoding where
  | Base58
  | Base64
deriving DecidableEq

/-- `KnownType::encoding`. -/
def KnownType.encoding : KnownType → Encoding
  | .KeyBlockHash => .Base58
  | .MicroBlockHash => .Base58
  | .BlockPofHash => .Base58
  | .BlockTxHash => .Base58
  | .BlockStateHash => .Base58
  | .Channel => .Base58
  | .ContractBytearray => .Base58
  | .ContractPubkey => .Base64
  | .ContractStoreKey => .Base64
  | .ContractStoreValue => .Base64
  | .Transaction => .Base64
  | .TxHash => .Base58
  | .OraclePubkey => .Base58
  | .OracleQuery => .Base64
  | .OracleQueryId => .Base58
  | .OracleResponse => .Base64
  | .AccountPubkey => .Base58
  | .Signature => .Base58
  | .Name => .Base58
  | .Commitment => .Base58
  | .PeerPubkey => .Base58
  | .State => .Base64
  | .Poi => .Base64
  | .StateTrees => .Base64
  | .CallStateTree => .Base64
  | .Bytearray => .Base64

namespace Encoding

/-- `Encoding::make_check`: `sha256::digest` returns the lowercase-hex
`String` of the hash, so the double digest hex-encodes twice and the
check is the first four ASCII characters of the outer hex string. -/
def make_check (_ : Encoding) (data : List Nat) : List Nat :=
  (hexAscii (sha256 (hexAscii (sha256 data)))).take 4

/-- `Encoding::add_check`. -/
def add_check (e : Encoding) (data : List Nat) : List Nat :=
  data ++ e.make_check data

/-- `Encoding::encode`. -/
def encode : Encoding → List Nat → List Char
  | .Base58, data => b58Encode data
  | .Base64, data => b64Encode data

/-- `Encoding::encode_with_check`. -/
def encode_with_check (e : Encoding) (data : List Nat) : List Char :=
  e.encode (e.add_check data)

/-- `Encoding::decode`. -/
def decode : Encoding → List Char → Option (List Nat)
  | .Base58, data => b58Decode data
  | .Base64, data => b64Decode data

end Encoding

/-- `encode_data`. -/
def encode_data (t : KnownType) (payload : List Nat) : List Char :=
  t.pfx ++ '_' :: (t.encoding.encode_with_check payload)

/-- `encode_id`. -/
def encode_id (i : Id) : List Char :=
  encode_data (KnownType.fromIdTag i.tag) i.val

/-- `str::split_once('_')`. -/
def splitUnderscore : List Char → Option (List Char × List Char)
  | [] => none
  | c :: rest =>
    if c = '_' then some ([], rest)
    else
      match splitUnderscore rest with
      | some (a, b) => some (c :: a, b)
      | none => none

/-- `split_prefix`. -/
def splitPfx (data : List Char) : Except DecodingErr (List Char × List Char) :=
  match splitUnderscore data with
  | none => .error .MissingPrefix
  | some (p, payload) =>
    if p.length ≠ 2 then .error .InvalidPrefix
    else .ok (p, payload)

/-- `decode_check`: a failed round of `assert_eq!` aborts the process,
and on a decoded payload shorter than 4 bytes the body size
`dec.len() - 4` underflows, so the body slice panics — both are
modelled as `panic`. -/
def decode_check (tp : KnownType) (data : List Char) : RRes DecodingErr (List Nat) :=
  match tp.encoding.decode data with
  | none => .err .InvalidEncoding
  | some dec =>
    if dec.length < 4 then .panic
    else
      let body := dec.take (dec.length - 4)
      let c := dec.drop (dec.length - 4)
      if c = tp.encoding.make_check body then .ok body else .panic

/-- `decode`. -/
def decode (data : List Char) : RRes DecodingErr (KnownType × List Nat) :=
  match splitPfx data with
  | .error e => .err e
  | .ok (p, payload) =>
    match KnownType.fromPfx p with
    | none => .err .InvalidPrefix
    | some tp =>
      match decode_check tp payload with
      | .panic => .panic
      | .err e => .err e
      | .ok decoded =>
        if ¬ tp.check_size decoded.length then .err .IncorrectSize
        else .ok (tp, decoded)

/-- `decode_id`: the 32-byte `try_into` conversion (`InvalidEncoding`
on failure) happens before the allow-list membership test. -/
def decode_id (allowed_types : List KnownType) (data : List Char) :
    RRes DecodingErr Id :=
  match decode data with
  | .panic => .panic
  | .err e => .err e
  | .ok (tp, decoded) =>
    if decoded.length ≠ 32 then .err .InvalidEncoding
    else if ¬ allowed_types.contains tp then .err .InvalidPrefix
    else
      match tp.toIdTag with
      | none => .err .InvalidPrefix
      | some tag => .ok ⟨tag, decoded⟩

end Api

namespace Api

theorem hexAscii_mem (bs : List Nat) :
    ∀ b ∈ hexAscii bs, (48 ≤ b ∧ b ≤ 57) ∨ (97 ≤ b ∧ b ≤ 102) := by
  intro b hb
  simp only [hexAscii, List.mem_flatMap] at hb
  obtain ⟨x, _, hx⟩ := hb
  have h1 : b = hexDigit (x / 16 % 16) ∨ b = hexDigit (x % 16) := by
    simpa using hx
  have hd : ∀ n, n < 16 → (48 ≤ hexDigit n ∧ hexDigit n ≤ 57) ∨
      (97 ≤ hexDigit n ∧ hexDigit n ≤ 102) := by decide
  rcases h1 with rfl | rfl
  · exact hd _ (Nat.mod_lt _ (by omega))
  · exact hd _ (Nat.mod_lt _ (by omega))

/-- C3: the checksum is not the first 4 raw bytes of
`sha256(sha256(payload))`.  The `sha256::digest` helper returns a
lowercase-hex `String`, so `make_check` hex-encodes between the two
hashes and takes the first four ASCII hex characters: every check byte
is an ASCII hex-digit code, and on the empty payload the check is
`"cd37"` (`[99, 100, 51, 55]`) where the raw double hash starts
`[93, 246, 224, 226]`. -/
theorem C3_make_check_is_hex (e : Encoding) (data : List Nat) :
    (∀ b ∈ Encoding.make_check e data, (48 ≤ b ∧ b ≤ 57) ∨ (97 ≤ b ∧ b ≤ 102)) ∧
    Encoding.make_check .Base58 [] = [99, 100, 51, 55] ∧
    (sha256 (sha256 [])).take 4 = [93, 246, 224, 226] ∧
    Encoding.make_check .Base58 [] ≠ (sha256 (sha256 [])).take 4 := by
  refine ⟨?_, by decide, by decide, by decide⟩
  intro b hb
  exact hexAscii_mem _ b (List.mem_of_mem_take hb)

theorem C3_make_check_is_hex_witness :
    ((99 : Nat) ∈ Encoding.make_check .Base58 []) ∧
    ((48 ≤ (99 : Nat) ∧ (99 : Nat) ≤ 57) ∨ (97 ≤ (99 : Nat) ∧ (99 : Nat) ≤ 102)) ∧
    Encoding.make_check .Base58 [] ≠ (sha256 (sha256 [])).take 4 :=
  ⟨by decide,
    (C3_make_check_is_hex .Base58 []).1 99 (by decide),
    (C3_make_check_is_hex .Base58 []).2.2.2⟩

/-- C4: a failed checksum does not surface as `InvalidCheck` — the
encoder crate's error enum (src/src/error.rs) has no such variant, and
`decode_check` compares the recomputed check with `assert_eq!`, which
aborts the process; a checksum-bearing payload shorter than 4 bytes
additionally underflows `dec.len() - 4`.  The base64 payload
`"AAAAAAA="` of the `tx_` object decodes to five zero bytes whose check
`[0,0,0,0]` cannot match (checks are ASCII hex digits), so `decode`
aborts instead of returning an error. -/
theorem C4_invalid_check_aborts :
    decode_check .Transaction "AAAAAAA=".toList = .panic ∧
    decode "tx_AAAAAAA=".toList = .panic ∧
    decode_check .Transaction "AA==".toList = .panic ∧
    decode "tx_AA==".toList = .panic := by
  refine ⟨by decide, by decide, by decide, by decide⟩

/-- C10: `decode_id` converts the checksum-verified payload into a
32-byte array (`InvalidEncoding` on failure) before consulting the
allow list, so for the fixed-size-less `Name` type (prefix `cm`) a
payload of any length other than 32 yields `InvalidEncoding` — not
`IncorrectSize`, `InvalidIdSize` or `InvalidIdPub` — for every allow
list. -/
theorem C10_decode_id_name_size (allowed : List KnownType) (s : List Char)
    (payload : List Nat) (h : decode s = .ok (.Name, payload))
    (hlen : payload.length ≠ 32) :
    KnownType.byte_size .Name = none ∧
    KnownType.pfx .Name = ['c', 'm'] ∧
    decode_id allowed s = .err .InvalidEncoding := by
  refine ⟨rfl, rfl, ?_⟩
  unfold decode_id
  rw [h]
  dsimp only
  rw [if_pos hlen]

theorem C10_decode_id_name_size_witness :
    (decode (encode_data .Name []) = .ok (.Name, []) ∧ ([] : List Nat).length ≠ 32) ∧
    KnownType.byte_size .Name = none ∧
    KnownType.pfx .Name = ['c', 'm'] ∧
    decode_id [.AccountPubkey] (encode_data .Name []) = .err .InvalidEncoding :=
  ⟨⟨by decide, by decide⟩,
    C10_decode_id_name_size [.AccountPubkey] (encode_data .Name []) []
      (by decide) (by decide)⟩

end Api

end Aeser
